import Mathlib

/-!
Shallow embedding of the SRombauts/shared_ptr library
(`src/shared_ptr.hpp` rev. under `src/src/`, and `include/unique_ptr.hpp`).

Pointers are modelled as `Option Nat`: `none` is NULL and `some i` is the
address of heap object `i`.  The heap records, for every managed object,
how many times `delete` has run on it, and for every reference-counter
cell (`new long(1)`), its current value and how many times `delete` has
run on it.  `std::bad_alloc` on the counter allocation is modelled by an
explicit `allocOk : Bool` parameter; `SHARED_ASSERT` is modelled as a
distinguished outcome.
-/

namespace SPtr

/-- A raw pointer value: `none` models NULL, `some i` the address of object `i`. -/
abbrev Ptr := Option Nat

/-- Heap cell for a reference counter allocated by `new long(1)`:
its current value (a C++ `long`) and the number of times `delete` has run on it. -/
structure CntCell where
  val : Int
  freed : Nat
deriving Repr, DecidableEq

/-- The modelled heap: for each managed object id, the number of times `delete`
has run on it (0 = alive), and the list of reference-counter cells. -/
structure Heap where
  objs : List Nat
  cnts : List CntCell
deriving Repr, DecidableEq

/-- The C++ statement `delete p` on a managed-object pointer; `delete NULL` is a no-op. -/
def Heap.deleteObj (h : Heap) (p : Ptr) : Heap :=
  match p with
  | none => h
  | some o => { h with objs := h.objs.set o (h.objs.getD o 0 + 1) }

/-- How many times `delete` has run on object `o`. -/
def Heap.objFreed (h : Heap) (o : Nat) : Nat := h.objs.getD o 0

/-- The C++ expression `new long(1)`: allocate a fresh counter cell, returning its address. -/
def Heap.allocCnt (h : Heap) : Heap × Nat :=
  ({ h with cnts := h.cnts ++ [⟨1, 0⟩] }, h.cnts.length)

/-- The value `*pn` of counter cell `c`. -/
def Heap.readCnt (h : Heap) (c : Nat) : Int := (h.cnts.getD c ⟨0, 0⟩).val

/-- How many times `delete` has run on counter cell `c`. -/
def Heap.cntFreed (h : Heap) (c : Nat) : Nat := (h.cnts.getD c ⟨0, 0⟩).freed

/-- The C++ statement `++(*pn)`. -/
def Heap.incCnt (h : Heap) (c : Nat) : Heap :=
  { h with cnts := h.cnts.set c ⟨h.readCnt c + 1, h.cntFreed c⟩ }

/-- The C++ statement `--(*pn)`. -/
def Heap.decCnt (h : Heap) (c : Nat) : Heap :=
  { h with cnts := h.cnts.set c ⟨h.readCnt c - 1, h.cntFreed c⟩ }

/-- The C++ statement `delete pn` on a counter cell. -/
def Heap.deleteCnt (h : Heap) (c : Nat) : Heap :=
  { h with cnts := h.cnts.set c ⟨h.readCnt c, h.cntFreed c + 1⟩ }

/-- Client-side `new Data(..)`: allocate a fresh managed object. -/
def Heap.allocObj (h : Heap) : Heap × Nat :=
  ({ h with objs := h.objs ++ [0] }, h.objs.length)

/-- Embedding of class `shared_ptr_count`: container for the allocated `pn`
reference counter (`long* pn`, modelled as an optional cell address). -/
structure shared_ptr_count where
  pn : Option Nat
deriving Repr, DecidableEq

/-- Embedding of `shared_ptr_count::use_count`: 0 when `pn` is NULL, else `*pn`. -/
def shared_ptr_count.use_count (c : shared_ptr_count) (h : Heap) : Int :=
  match c.pn with
  | none => 0
  | some i => h.readCnt i

/-- Embedding of `shared_ptr_count::acquire`: share ownership of `p`, allocating
the counter (initialized to 1) on first acquisition.  The parameter
`allocOk = false` models `new long(1)` raising `std::bad_alloc`, in which case
`p` is deleted and the exception propagates (`.error` carries the heap after
`delete p`). -/
def shared_ptr_count.acquire (c : shared_ptr_count) (p : Ptr) (allocOk : Bool) (h : Heap) :
    Except Heap (shared_ptr_count × Heap) :=
  match p with
  | none => .ok (c, h)
  | some _ =>
    match c.pn with
    | none =>
      if allocOk then
        let r := h.allocCnt
        .ok (⟨some r.2⟩, r.1)
      else
        .error (h.deleteObj p)
    | some i => .ok (c, h.incCnt i)

/-- Embedding of `shared_ptr_count::release`: decrement the counter and, when it
reaches zero, `delete p; delete pn;`.  In every branch `pn` ends up NULL. -/
def shared_ptr_count.release (c : shared_ptr_count) (p : Ptr) (h : Heap) :
    shared_ptr_count × Heap :=
  match c.pn with
  | none => (c, h)
  | some i =>
    let h1 := h.decCnt i
    if h1.readCnt i = 0 then
      (⟨none⟩, (h1.deleteObj p).deleteCnt i)
    else
      (⟨none⟩, h1)

/-- Embedding of class `shared_ptr` (file `src/shared_ptr.hpp`): the native
pointer `px` and the reference-counter container `pn`. -/
structure shared_ptr where
  px : Ptr
  pn : shared_ptr_count
deriving Repr, DecidableEq

/-- Outcome of an operation that can trip `SHARED_ASSERT` or let `std::bad_alloc`
escape.  The type `ε` carries the state observable after the exception escapes. -/
inductive Res (ε α : Type) where
  | ok (a : α)
  | assertViolation
  | oom (e : ε)
deriving Repr, DecidableEq

/-- Embedding of `shared_ptr::get`. -/
def shared_ptr.get (s : shared_ptr) : Ptr := s.px

/-- Embedding of `shared_ptr::use_count`. -/
def shared_ptr.use_count (s : shared_ptr) (h : Heap) : Int := s.pn.use_count h

/-- Embedding of `shared_ptr::operator bool`: `0 < pn.use_count()`. -/
def shared_ptr.toBool (s : shared_ptr) (h : Heap) : Bool := decide (0 < s.use_count h)

/-- Embedding of `shared_ptr::unique`: `1 == pn.use_count()`. -/
def shared_ptr.unique (s : shared_ptr) (h : Heap) : Bool := decide (s.use_count h = 1)

/-- Embedding of the private `shared_ptr::acquire`: `pn.acquire(p); px = p;`.
On `std::bad_alloc` the handle fields are unchanged (the write `px = p` never
runs) and the exception escapes with the handle and heap as then observable. -/
def shared_ptr.acquireOp (s : shared_ptr) (p : Ptr) (allocOk : Bool) (h : Heap) :
    Except (shared_ptr × Heap) (shared_ptr × Heap) :=
  match s.pn.acquire p allocOk h with
  | .ok (c, h1) => .ok ({ px := p, pn := c }, h1)
  | .error h1 => .error (s, h1)

/-- Embedding of the private `shared_ptr::release`: `pn.release(px); px = NULL;`. -/
def shared_ptr.releaseOp (s : shared_ptr) (h : Heap) : shared_ptr × Heap :=
  let r := s.pn.release s.px h
  ({ px := none, pn := r.1 }, r.2)

/-- Embedding of the default constructor `shared_ptr()`: the empty handle. -/
def shared_ptr.nullHandle : shared_ptr := ⟨none, ⟨none⟩⟩

/-- Embedding of the constructor `shared_ptr(T* p)`: `pn` default-initialized,
then `acquire(p)`.  On counter-allocation failure `p` has been deleted and the
exception escapes the constructor, so no handle is produced (`.error` carries
the resulting heap).  Before `acquire` runs, `px` holds no meaningful value;
the model uses `none` for that transient state, which is never observable. -/
def shared_ptr.ctorFromPtr (p : Ptr) (allocOk : Bool) (h : Heap) :
    Except Heap (shared_ptr × Heap) :=
  match shared_ptr.acquireOp ⟨none, ⟨none⟩⟩ p allocOk h with
  | .ok r => .ok r
  | .error (_, h1) => .error h1

/-- Embedding of the copy constructor `shared_ptr(const shared_ptr& ptr)`:
adopt the source counter container, run
`SHARED_ASSERT((NULL == ptr.px) || (0 != ptr.pn.use_count()))`,
then `acquire(ptr.px)`. -/
def shared_ptr.copyCtor (src : shared_ptr) (allocOk : Bool) (h : Heap) :
    Res Heap (shared_ptr × Heap) :=
  if src.px = none ∨ src.pn.use_count h ≠ 0 then
    match shared_ptr.acquireOp ⟨none, src.pn⟩ src.px allocOk h with
    | .ok r => .ok r
    | .error (_, h1) => .oom h1
  else
    .assertViolation

/-- Embedding of `operator=(shared_ptr ptr)` at a call site `dst = src` where
`dst` and `src` are distinct handles (the by-value argument is copy-constructed
from `src`, swapped with `dst`, and the temporary is destroyed, releasing the
state `dst` held before).  Returns the new value of `dst`; the handle `src`
itself is not written to.  The computation also matches the aliased call
`dst = dst`, because the temporary captures the old field values first. -/
def shared_ptr.assignOp (dst src : shared_ptr) (allocOk : Bool) (h : Heap) :
    Res Heap (shared_ptr × Heap) :=
  match src.copyCtor allocOk h with
  | .ok (tmp, h1) =>
    let r := dst.releaseOp h1
    .ok (tmp, r.2)
  | .assertViolation => .assertViolation
  | .oom h1 => .oom h1

/-- Embedding of `shared_ptr::reset()`: release ownership. -/
def shared_ptr.reset (s : shared_ptr) (h : Heap) : shared_ptr × Heap :=
  s.releaseOp h

/-- Embedding of `shared_ptr::reset(T* p)`:
`SHARED_ASSERT((NULL == p) || (px != p)); release(); acquire(p);`.
On counter-allocation failure the exception escapes with the handle already
emptied by `release` (the `.oom` payload is the handle and heap observable
after the failure). -/
def shared_ptr.resetPtr (s : shared_ptr) (p : Ptr) (allocOk : Bool) (h : Heap) :
    Res (shared_ptr × Heap) (shared_ptr × Heap) :=
  if p = none ∨ s.px ≠ p then
    let r := s.releaseOp h
    match r.1.acquireOp p allocOk r.2 with
    | .ok a => .ok a
    | .error e => .oom e
  else
    .assertViolation

/-- Embedding of the cast-support constructor
`shared_ptr(const shared_ptr<U>& ptr, T* p)`: adopt `ptr`'s counter container,
then `acquire(p)`.  (This constructor has no assertion in the source.) -/
def shared_ptr.castCtor (src : shared_ptr) (p : Ptr) (allocOk : Bool) (h : Heap) :
    Except Heap (shared_ptr × Heap) :=
  match shared_ptr.acquireOp ⟨none, src.pn⟩ p allocOk h with
  | .ok r => .ok r
  | .error (_, h1) => .error h1

/-- Embedding of `static_pointer_cast` for `shared_ptr`: the compile-time
pointer conversion is address-preserving in this model (same object id). -/
def static_pointer_cast (ptr : shared_ptr) (allocOk : Bool) (h : Heap) :
    Except Heap (shared_ptr × Heap) :=
  shared_ptr.castCtor ptr ptr.get allocOk h

/-- The C++ expression `dynamic_cast<T*>(p)` with the runtime type check
modelled by the oracle `dc` (per object id): the same address on success,
NULL on failure or on NULL input. -/
def dynCastPtr (dc : Nat → Bool) (p : Ptr) : Ptr :=
  match p with
  | none => none
  | some o => if dc o then some o else none

/-- Embedding of `dynamic_pointer_cast` for `shared_ptr`: convert `ptr.get()`;
on non-NULL result share ownership via the cast-support constructor, else
return an empty handle. -/
def dynamic_pointer_cast (dc : Nat → Bool) (ptr : shared_ptr) (allocOk : Bool) (h : Heap) :
    Except Heap (shared_ptr × Heap) :=
  match dynCastPtr dc ptr.get with
  | some o => shared_ptr.castCtor ptr (some o) allocOk h
  | none => .ok (shared_ptr.nullHandle, h)

/-- Embedding of the fake `move` helper of `include/unique_ptr.hpp`:
`template <typename T> inline T& move(T& v) \x7b return v; \x7d`. -/
def move {α : Type} (v : α) : α := v

/-- Embedding of class `unique_ptr` (file `include/unique_ptr.hpp`):
just the native pointer `px`. -/
structure unique_ptr where
  px : Ptr
deriving Repr, DecidableEq

/-- Embedding of `unique_ptr::get`. -/
def unique_ptr.get (u : unique_ptr) : Ptr := u.px

/-- Embedding of `unique_ptr::operator bool`: `NULL != px`. -/
def unique_ptr.toBool (u : unique_ptr) : Bool := decide (u.px ≠ none)

/-- Embedding of the private `unique_ptr::release`: `delete px; px = NULL;`. -/
def unique_ptr.releaseOp (u : unique_ptr) (h : Heap) : unique_ptr × Heap :=
  (⟨none⟩, h.deleteObj u.px)

/-- Embedding of the copy constructor `unique_ptr(unique_ptr& ptr)`
(transfer): `acquire(ptr.px); ptr.px = NULL;`.  Returns the new handle and the
emptied source. -/
def unique_ptr.copyCtor (src : unique_ptr) : unique_ptr × unique_ptr :=
  (⟨src.px⟩, ⟨none⟩)

/-- Embedding of `operator=(unique_ptr ptr)` at a call site `dst = src` with
`dst` and `src` distinct handles: the by-value argument is copy-constructed
from `src` (emptying it), swapped with `dst`, and the temporary is destroyed,
deleting the object `dst` held before.  Returns (new dst, new src, heap). -/
def unique_ptr.assignOp (dst src : unique_ptr) (h : Heap) :
    unique_ptr × unique_ptr × Heap :=
  let c := unique_ptr.copyCtor src
  let r := unique_ptr.releaseOp ⟨dst.px⟩ h
  (c.1, c.2, r.2)

/-- Embedding of `unique_ptr::reset()`. -/
def unique_ptr.reset (u : unique_ptr) (h : Heap) : unique_ptr × Heap :=
  u.releaseOp h

/-- Embedding of `unique_ptr::reset(T* p)`:
`SHARED_ASSERT((NULL == p) || (px != p)); release(); acquire(p);`
where `acquire` is the plain pointer assignment (no allocation is possible). -/
def unique_ptr.resetPtr (u : unique_ptr) (p : Ptr) (h : Heap) :
    Res Unit (unique_ptr × Heap) :=
  if p = none ∨ u.px ≠ p then
    let r := u.releaseOp h
    .ok (⟨p⟩, r.2)
  else
    .assertViolation

/-- One client-visible operation on a store of `shared_ptr` handles:
adopting a fresh allocation, copy construction, copy assignment, `reset()`,
and handle destruction. -/
inductive Op where
  | fresh (allocOk : Bool)
  | copyCon (src : Nat)
  | assign (dst src : Nat)
  | reset (i : Nat)
  | destroy (i : Nat)
deriving Repr, DecidableEq

/-- A store of `shared_ptr` handles (slot `none` = destroyed or never created)
together with the heap they act on. -/
structure World where
  handles : List (Option shared_ptr)
  heap : Heap
deriving Repr, DecidableEq

/-- The empty world: no handles, empty heap. -/
def World.init : World := ⟨[], ⟨[], []⟩⟩

/-- The live handle in slot `i`, if any. -/
def World.liveAt (w : World) (i : Nat) : Option shared_ptr := w.handles.getD i none

/-- Execution of one operation.  Operations on dead or out-of-range slots, and
branches the source aborts on (`SHARED_ASSERT`) or exits by exception from
(which client code would not continue past with the same handles), leave the
world unchanged; `fresh` with a failing counter allocation keeps the heap in
which the adopted object has been deleted. -/
def World.step (w : World) (op : Op) : World :=
  match op with
  | .fresh allocOk =>
    let a := w.heap.allocObj
    match shared_ptr.ctorFromPtr (some a.2) allocOk a.1 with
    | .ok (s, h2) => ⟨w.handles ++ [some s], h2⟩
    | .error h2 => ⟨w.handles, h2⟩
  | .copyCon src =>
    match w.liveAt src with
    | some s =>
      match s.copyCtor true w.heap with
      | .ok (t, h1) => ⟨w.handles ++ [some t], h1⟩
      | _ => w
    | none => w
  | .assign dst src =>
    match w.liveAt dst, w.liveAt src with
    | some d, some s =>
      match shared_ptr.assignOp d s true w.heap with
      | .ok (d1, h1) => ⟨w.handles.set dst (some d1), h1⟩
      | _ => w
    | _, _ => w
  | .reset i =>
    match w.liveAt i with
    | some s =>
      let r := s.reset w.heap
      ⟨w.handles.set i (some r.1), r.2⟩
    | none => w
  | .destroy i =>
    match w.liveAt i with
    | some s =>
      let r := s.releaseOp w.heap
      ⟨w.handles.set i none, r.2⟩
    | none => w

/-- Execution of a whole operation sequence from a starting world. -/
def World.run (w : World) (ops : List Op) : World := ops.foldl World.step w

/-- Decision of whether a handle slot holds a live handle whose counter field
points at cell `c`. -/
def cntP (c : Nat) : Option shared_ptr → Bool :=
  fun x => match x with
    | some s => s.pn.pn == some c
    | none => false

/-- Decision of whether a handle slot holds a live handle whose object field
points at object `o`. -/
def objP (o : Nat) : Option shared_ptr → Bool :=
  fun x => match x with
    | some s => s.px == some o
    | none => false

/-- Number of live handles whose counter field points at cell `c`. -/
def refcnt (hs : List (Option shared_ptr)) (c : Nat) : Nat :=
  hs.countP (cntP c)

/-- Number of live handles whose object field points at object `o`. -/
def objref (hs : List (Option shared_ptr)) (o : Nat) : Nat :=
  hs.countP (objP o)

/-- Coherence of a single live handle with the heap: object and counter fields
are NULL together, and each points at an in-range, not-yet-freed cell. -/
def HandleOK (hp : Heap) (s : shared_ptr) : Prop :=
  (s.px = none ↔ s.pn.pn = none)
  ∧ (∀ o, s.px = some o → o < hp.objs.length ∧ hp.objFreed o = 0)
  ∧ (∀ c, s.pn.pn = some c → c < hp.cnts.length ∧ hp.cntFreed c = 0)

/-- Global well-formedness of a world: every live handle is coherent; every
not-yet-freed counter cell holds exactly the number of live handles sharing it
(and is shared by at least one); cells are freed at most once; every live
object is still referenced; and two live handles share a counter cell exactly
when they reference the same object. -/
def WF (w : World) : Prop :=
  (∀ s : shared_ptr, some s ∈ w.handles → HandleOK w.heap s)
  ∧ (∀ c, c < w.heap.cnts.length →
      w.heap.cntFreed c ≤ 1
      ∧ (w.heap.cntFreed c = 0 →
          w.heap.readCnt c = (refcnt w.handles c : Int) ∧ 1 ≤ refcnt w.handles c))
  ∧ (∀ o, o < w.heap.objs.length →
      w.heap.objFreed o ≤ 1
      ∧ (w.heap.objFreed o = 0 → 1 ≤ objref w.handles o))
  ∧ (∀ s t : shared_ptr, some s ∈ w.handles → some t ∈ w.handles →
      (s.pn.pn = t.pn.pn ↔ s.px = t.px))

/-- Unfolding of `WF` on an explicitly given pair of components. -/
theorem WF_mk {hs : List (Option shared_ptr)} {hp : Heap} :
    WF ⟨hs, hp⟩ ↔
      ((∀ s : shared_ptr, some s ∈ hs → HandleOK hp s)
      ∧ (∀ c, c < hp.cnts.length →
          hp.cntFreed c ≤ 1
          ∧ (hp.cntFreed c = 0 →
              hp.readCnt c = (refcnt hs c : Int) ∧ 1 ≤ refcnt hs c))
      ∧ (∀ o, o < hp.objs.length →
          hp.objFreed o ≤ 1
          ∧ (hp.objFreed o = 0 → 1 ≤ objref hs o))
      ∧ (∀ s t : shared_ptr, some s ∈ hs → some t ∈ hs →
          (s.pn.pn = t.pn.pn ↔ s.px = t.px))) :=
  Iff.rfl

/-! List helper lemmas. -/

theorem getD_set_self {α : Type} (l : List α) (i : Nat) (a d : α) (h : i < l.length) :
    (l.set i a).getD i d = a := by
  simp [List.getD_eq_getElem?_getD, List.getElem?_set, h]

theorem getD_set_ne {α : Type} (l : List α) (i j : Nat) (a d : α) (h : i ≠ j) :
    (l.set i a).getD j d = l.getD j d := by
  simp [List.getD_eq_getElem?_getD, List.getElem?_set, h]

theorem getD_concat_lt {α : Type} (l : List α) (j : Nat) (a d : α) (h : j < l.length) :
    (l ++ [a]).getD j d = l.getD j d := by
  simp [List.getD_eq_getElem?_getD, List.getElem?_append, h]

theorem getD_concat_self {α : Type} (l : List α) (a d : α) :
    (l ++ [a]).getD l.length d = a := by
  simp [List.getD_eq_getElem?_getD, List.getElem?_concat_length]

theorem getD_ge {α : Type} (l : List α) (j : Nat) (d : α) (h : l.length ≤ j) :
    l.getD j d = d := by
  simp [List.getD_eq_getElem?_getD, List.getElem?_eq_none h]

theorem getD_concat_gt {α : Type} (l : List α) (j : Nat) (a d : α) (h : l.length < j) :
    (l ++ [a]).getD j d = d := by
  apply getD_ge
  simpa [List.length_append] using h

theorem lt_length_of_getD_ne {α : Type} (l : List α) (j : Nat) (d : α)
    (h : l.getD j d ≠ d) : j < l.length := by
  by_contra hc
  exact h (getD_ge l j d (Nat.le_of_not_lt hc))

theorem getD_eq_getElem {α : Type} (l : List α) (i : Nat) (d : α) (h : i < l.length) :
    l.getD i d = l[i] := by
  simp [List.getD_eq_getElem?_getD, List.getElem?_eq_getElem h]

theorem getD_mem {α : Type} (l : List α) (i : Nat) (d : α) (h : i < l.length) :
    l.getD i d ∈ l := by
  rw [getD_eq_getElem l i d h]
  exact List.getElem_mem h

theorem getD_of_mem {α : Type} {x : α} {l : List α} (hm : x ∈ l) (d : α) :
    ∃ i, i < l.length ∧ l.getD i d = x := by
  obtain ⟨n, hn⟩ := List.get_of_mem hm
  exact ⟨n.1, n.2, by rw [getD_eq_getElem l n.1 d n.2]; simpa using congrArg id hn⟩

theorem countP_concat {α : Type} (p : α → Bool) (l : List α) (a : α) :
    (l ++ [a]).countP p = l.countP p + if p a then 1 else 0 := by
  simp [List.countP_append, List.countP_cons]

theorem countP_set_add {α : Type} (p : α → Bool) (l : List α) (i : Nat) (a d : α)
    (h : i < l.length) :
    (l.set i a).countP p + (if p (l.getD i d) then 1 else 0)
      = l.countP p + (if p a then 1 else 0) := by
  induction l generalizing i with
  | nil => simp at h
  | cons b t ih =>
    cases i with
    | zero =>
      simp only [List.set_cons_zero, List.countP_cons, List.getD_cons_zero]
      omega
    | succ k =>
      have hk : k < t.length := by simpa using h
      have := ih k hk
      simp only [List.set_cons_succ, List.countP_cons, List.getD_cons_succ]
      omega

theorem le_countP_of_getD {α : Type} (p : α → Bool) (l : List α) (i : Nat) (d : α)
    (h : i < l.length) (hp : p (l.getD i d) = true) : 1 ≤ l.countP p := by
  exact List.countP_pos_iff.mpr ⟨l.getD i d, getD_mem l i d h, hp⟩

theorem not_pred_of_countP_eq_zero {α : Type} {p : α → Bool} {l : List α}
    (h0 : l.countP p = 0) {i : Nat} {d : α} (h : i < l.length) : p (l.getD i d) = false := by
  have := List.countP_eq_zero.mp h0 (l.getD i d) (getD_mem l i d h)
  simpa using this

/-! Heap accessor lemmas. -/

theorem objs_incCnt (h : Heap) (c : Nat) : (h.incCnt c).objs = h.objs := rfl

theorem objs_decCnt (h : Heap) (c : Nat) : (h.decCnt c).objs = h.objs := rfl

theorem objs_deleteCnt (h : Heap) (c : Nat) : (h.deleteCnt c).objs = h.objs := rfl

theorem objFreed_incCnt (h : Heap) (c o : Nat) : (h.incCnt c).objFreed o = h.objFreed o := rfl

theorem objFreed_decCnt (h : Heap) (c o : Nat) : (h.decCnt c).objFreed o = h.objFreed o := rfl

theorem objFreed_deleteCnt (h : Heap) (c o : Nat) :
    (h.deleteCnt c).objFreed o = h.objFreed o := rfl

theorem cnts_deleteObj (h : Heap) (p : Ptr) : (h.deleteObj p).cnts = h.cnts := by
  cases p <;> rfl

theorem readCnt_deleteObj (h : Heap) (p : Ptr) (c : Nat) :
    (h.deleteObj p).readCnt c = h.readCnt c := by
  cases p <;> rfl

theorem cntFreed_deleteObj (h : Heap) (p : Ptr) (c : Nat) :
    (h.deleteObj p).cntFreed c = h.cntFreed c := by
  cases p <;> rfl

theorem length_cnts_incCnt (h : Heap) (c : Nat) :
    (h.incCnt c).cnts.length = h.cnts.length := by
  simp [Heap.incCnt]

theorem length_cnts_decCnt (h : Heap) (c : Nat) :
    (h.decCnt c).cnts.length = h.cnts.length := by
  simp [Heap.decCnt]

theorem length_cnts_deleteCnt (h : Heap) (c : Nat) :
    (h.deleteCnt c).cnts.length = h.cnts.length := by
  simp [Heap.deleteCnt]

theorem length_objs_deleteObj (h : Heap) (p : Ptr) :
    (h.deleteObj p).objs.length = h.objs.length := by
  cases p <;> simp [Heap.deleteObj]

theorem readCnt_incCnt_self (h : Heap) (c : Nat) (hc : c < h.cnts.length) :
    (h.incCnt c).readCnt c = h.readCnt c + 1 := by
  simp only [Heap.incCnt, Heap.readCnt]
  rw [getD_set_self _ _ _ _ hc]

theorem readCnt_incCnt_ne (h : Heap) (c c' : Nat) (hne : c ≠ c') :
    (h.incCnt c).readCnt c' = h.readCnt c' := by
  simp only [Heap.incCnt, Heap.readCnt]
  rw [getD_set_ne _ _ _ _ _ hne]

theorem cntFreed_incCnt_self (h : Heap) (c : Nat) (hc : c < h.cnts.length) :
    (h.incCnt c).cntFreed c = h.cntFreed c := by
  simp only [Heap.incCnt, Heap.cntFreed]
  rw [getD_set_self _ _ _ _ hc]

theorem cntFreed_incCnt_ne (h : Heap) (c c' : Nat) (hne : c ≠ c') :
    (h.incCnt c).cntFreed c' = h.cntFreed c' := by
  simp only [Heap.incCnt, Heap.cntFreed]
  rw [getD_set_ne _ _ _ _ _ hne]

theorem readCnt_decCnt_self (h : Heap) (c : Nat) (hc : c < h.cnts.length) :
    (h.decCnt c).readCnt c = h.readCnt c - 1 := by
  simp only [Heap.decCnt, Heap.readCnt]
  rw [getD_set_self _ _ _ _ hc]

theorem readCnt_decCnt_ne (h : Heap) (c c' : Nat) (hne : c ≠ c') :
    (h.decCnt c).readCnt c' = h.readCnt c' := by
  simp only [Heap.decCnt, Heap.readCnt]
  rw [getD_set_ne _ _ _ _ _ hne]

theorem cntFreed_decCnt_self (h : Heap) (c : Nat) (hc : c < h.cnts.length) :
    (h.decCnt c).cntFreed c = h.cntFreed c := by
  simp only [Heap.decCnt, Heap.cntFreed]
  rw [getD_set_self _ _ _ _ hc]

theorem cntFreed_decCnt_ne (h : Heap) (c c' : Nat) (hne : c ≠ c') :
    (h.decCnt c).cntFreed c' = h.cntFreed c' := by
  simp only [Heap.decCnt, Heap.cntFreed]
  rw [getD_set_ne _ _ _ _ _ hne]

theorem readCnt_deleteCnt_self (h : Heap) (c : Nat) (hc : c < h.cnts.length) :
    (h.deleteCnt c).readCnt c = h.readCnt c := by
  simp only [Heap.deleteCnt, Heap.readCnt]
  rw [getD_set_self _ _ _ _ hc]

theorem readCnt_deleteCnt_ne (h : Heap) (c c' : Nat) (hne : c ≠ c') :
    (h.deleteCnt c).readCnt c' = h.readCnt c' := by
  simp only [Heap.deleteCnt, Heap.readCnt]
  rw [getD_set_ne _ _ _ _ _ hne]

theorem cntFreed_deleteCnt_self (h : Heap) (c : Nat) (hc : c < h.cnts.length) :
    (h.deleteCnt c).cntFreed c = h.cntFreed c + 1 := by
  simp only [Heap.deleteCnt, Heap.cntFreed]
  rw [getD_set_self _ _ _ _ hc]

theorem cntFreed_deleteCnt_ne (h : Heap) (c c' : Nat) (hne : c ≠ c') :
    (h.deleteCnt c).cntFreed c' = h.cntFreed c' := by
  simp only [Heap.deleteCnt, Heap.cntFreed]
  rw [getD_set_ne _ _ _ _ _ hne]

theorem objFreed_deleteObj_self (h : Heap) (o : Nat) (ho : o < h.objs.length) :
    (h.deleteObj (some o)).objFreed o = h.objFreed o + 1 := by
  simp only [Heap.deleteObj, Heap.objFreed]
  rw [getD_set_self _ _ _ _ ho]

theorem objFreed_deleteObj_ne (h : Heap) (o o' : Nat) (hne : o ≠ o') :
    (h.deleteObj (some o)).objFreed o' = h.objFreed o' := by
  simp only [Heap.deleteObj, Heap.objFreed]
  rw [getD_set_ne _ _ _ _ _ hne]

theorem deleteObj_none (h : Heap) : h.deleteObj none = h := rfl

/-! Counting helper lemmas specialised to handle stores. -/

theorem cntP_none (c : Nat) : cntP c none = false := rfl

theorem cntP_some (c : Nat) (s : shared_ptr) : cntP c (some s) = (s.pn.pn == some c) := rfl

theorem objP_none (o : Nat) : objP o none = false := rfl

theorem objP_some (o : Nat) (s : shared_ptr) : objP o (some s) = (s.px == some o) := rfl

theorem refcnt_concat (hs : List (Option shared_ptr)) (x : Option shared_ptr) (c : Nat) :
    refcnt (hs ++ [x]) c = refcnt hs c + if cntP c x then 1 else 0 :=
  countP_concat _ hs x

theorem objref_concat (hs : List (Option shared_ptr)) (x : Option shared_ptr) (o : Nat) :
    objref (hs ++ [x]) o = objref hs o + if objP o x then 1 else 0 :=
  countP_concat _ hs x

theorem refcnt_set_add (hs : List (Option shared_ptr)) (i : Nat) (x : Option shared_ptr)
    (c : Nat) (h : i < hs.length) :
    refcnt (hs.set i x) c + (if cntP c (hs.getD i none) then 1 else 0)
      = refcnt hs c + if cntP c x then 1 else 0 :=
  countP_set_add _ hs i x none h

theorem objref_set_add (hs : List (Option shared_ptr)) (i : Nat) (x : Option shared_ptr)
    (o : Nat) (h : i < hs.length) :
    objref (hs.set i x) o + (if objP o (hs.getD i none) then 1 else 0)
      = objref hs o + if objP o x then 1 else 0 :=
  countP_set_add _ hs i x none h

/-! Characterization lemmas for the embedded operations. -/

theorem releaseOp_empty {s : shared_ptr} (hpn : s.pn.pn = none) (h : Heap) :
    s.releaseOp h = (shared_ptr.nullHandle, h) := by
  obtain ⟨px, ⟨pn⟩⟩ := s
  simp only at hpn
  subst hpn
  rfl

theorem releaseOp_owning_last {s : shared_ptr} {c : Nat} {h : Heap}
    (hc : s.pn.pn = some c) (hlen : c < h.cnts.length) (h1 : h.readCnt c = 1) :
    s.releaseOp h = (shared_ptr.nullHandle, ((h.decCnt c).deleteObj s.px).deleteCnt c) := by
  obtain ⟨px, ⟨pn⟩⟩ := s
  simp only at hc
  subst hc
  have hz : (h.decCnt c).readCnt c = 0 := by
    rw [readCnt_decCnt_self h c hlen, h1]
    ring
  simp [shared_ptr.releaseOp, shared_ptr_count.release, hz, shared_ptr.nullHandle]

theorem releaseOp_owning_not_last {s : shared_ptr} {c : Nat} {h : Heap}
    (hc : s.pn.pn = some c) (hlen : c < h.cnts.length) (h1 : h.readCnt c ≠ 1) :
    s.releaseOp h = (shared_ptr.nullHandle, h.decCnt c) := by
  obtain ⟨px, ⟨pn⟩⟩ := s
  simp only at hc
  subst hc
  have hz : (h.decCnt c).readCnt c ≠ 0 := by
    rw [readCnt_decCnt_self h c hlen]
    omega
  simp [shared_ptr.releaseOp, shared_ptr_count.release, hz, shared_ptr.nullHandle]

theorem copyCtor_empty {s : shared_ptr} (hpx : s.px = none) (hpn : s.pn.pn = none)
    (allocOk : Bool) (h : Heap) :
    s.copyCtor allocOk h = .ok (shared_ptr.nullHandle, h) := by
  obtain ⟨px, ⟨pn⟩⟩ := s
  simp only at hpx hpn
  subst hpx; subst hpn
  rfl

theorem copyCtor_owning {s : shared_ptr} {o c : Nat}
    (hpx : s.px = some o) (hpn : s.pn.pn = some c)
    (allocOk : Bool) {h : Heap} (hnz : h.readCnt c ≠ 0) :
    s.copyCtor allocOk h = .ok (⟨some o, ⟨some c⟩⟩, h.incCnt c) := by
  obtain ⟨px, ⟨pn⟩⟩ := s
  simp only at hpx hpn
  subst hpx; subst hpn
  have hcond : (some o : Ptr) = none ∨
      shared_ptr_count.use_count ⟨some c⟩ h ≠ 0 := by
    right
    simpa [shared_ptr_count.use_count] using hnz
  simp only [shared_ptr.copyCtor]
  rw [if_pos hcond]
  rfl

theorem ctorFromPtr_none (allocOk : Bool) (h : Heap) :
    shared_ptr.ctorFromPtr none allocOk h = .ok (shared_ptr.nullHandle, h) := rfl

theorem ctorFromPtr_some_ok (q : Nat) (h : Heap) :
    shared_ptr.ctorFromPtr (some q) true h
      = .ok (⟨some q, ⟨some h.cnts.length⟩⟩, { h with cnts := h.cnts ++ [⟨1, 0⟩] }) := rfl

theorem ctorFromPtr_some_fail (q : Nat) (h : Heap) :
    shared_ptr.ctorFromPtr (some q) false h = .error (h.deleteObj (some q)) := rfl

/-! Extraction lemmas for well-formed worlds. -/

theorem liveAt_lt {w : World} {i : Nat} {s : shared_ptr} (hi : w.liveAt i = some s) :
    i < w.handles.length := by
  apply lt_length_of_getD_ne w.handles i none
  rw [show w.handles.getD i none = w.liveAt i from rfl, hi]
  simp

theorem liveAt_mem {w : World} {i : Nat} {s : shared_ptr} (hi : w.liveAt i = some s) :
    some s ∈ w.handles := by
  have := getD_mem w.handles i none (liveAt_lt hi)
  rwa [show w.handles.getD i none = w.liveAt i from rfl, hi] at this

theorem handleOK_null (hp : Heap) : HandleOK hp shared_ptr.nullHandle := by
  refine ⟨by simp [shared_ptr.nullHandle], ?_, ?_⟩ <;> intro z hz <;> simp [shared_ptr.nullHandle] at hz

theorem cntP_null (c : Nat) : cntP c (some shared_ptr.nullHandle) = false := rfl

theorem objP_null (o : Nat) : objP o (some shared_ptr.nullHandle) = false := rfl

theorem refcnt_pos_of_mem {hs : List (Option shared_ptr)} {s : shared_ptr} {c : Nat}
    (hm : some s ∈ hs) (hc : s.pn.pn = some c) : 1 ≤ refcnt hs c := by
  apply List.countP_pos_iff.mpr
  exact ⟨some s, hm, by simp [cntP, hc]⟩

theorem objref_pos_of_mem {hs : List (Option shared_ptr)} {s : shared_ptr} {o : Nat}
    (hm : some s ∈ hs) (ho : s.px = some o) : 1 ≤ objref hs o := by
  apply List.countP_pos_iff.mpr
  exact ⟨some s, hm, by simp [objP, ho]⟩

theorem not_mem_of_refcnt_eq_zero {hs : List (Option shared_ptr)} {c : Nat}
    (h0 : refcnt hs c = 0) {t : shared_ptr} (hm : some t ∈ hs) : t.pn.pn ≠ some c := by
  intro hc
  have := List.countP_eq_zero.mp h0 (some t) hm
  simp [cntP, hc] at this

theorem not_mem_of_objref_eq_zero {hs : List (Option shared_ptr)} {o : Nat}
    (h0 : objref hs o = 0) {t : shared_ptr} (hm : some t ∈ hs) : t.px ≠ some o := by
  intro ho
  have := List.countP_eq_zero.mp h0 (some t) hm
  simp [objP, ho] at this

theorem refcnt_eq_zero_of_ge {w : World} (hw : WF w) {c : Nat}
    (hc : w.heap.cnts.length ≤ c) : refcnt w.handles c = 0 := by
  apply List.countP_eq_zero.mpr
  intro x hx
  cases x with
  | none => simp [cntP]
  | some t =>
    have ht := hw.1 t hx
    simp only [cntP]
    intro hbeq
    have : t.pn.pn = some c := by simpa using hbeq
    have := (ht.2.2 c this).1
    omega

theorem objref_eq_zero_of_ge {w : World} (hw : WF w) {o : Nat}
    (ho : w.heap.objs.length ≤ o) : objref w.handles o = 0 := by
  apply List.countP_eq_zero.mpr
  intro x hx
  cases x with
  | none => simp [objP]
  | some t =>
    have ht := hw.1 t hx
    simp only [objP]
    intro hbeq
    have : t.px = some o := by simpa using hbeq
    have := (ht.2.1 o this).1
    omega

theorem objref_eq_refcnt_of_WF {w : World} (hw : WF w) {s : shared_ptr} {o c : Nat}
    (hm : some s ∈ w.handles) (ho : s.px = some o) (hc : s.pn.pn = some c) :
    objref w.handles o = refcnt w.handles c := by
  apply List.countP_congr
  intro x hx
  cases x with
  | none => simp [objP, cntP]
  | some t =>
    have hd := hw.2.2.2 s t hm hx
    rw [hc, ho] at hd
    simp only [objP, cntP, beq_iff_eq]
    constructor
    · intro h
      exact (hd.mpr h.symm).symm
    · intro h
      exact (hd.mp h.symm).symm

/-! Preservation of well-formedness by each operation. -/

theorem slot_contrib_cnt {x : Option shared_ptr}
    (hx : x = none ∨ x = some shared_ptr.nullHandle) (c : Nat) : cntP c x = false := by
  rcases hx with rfl | rfl <;> rfl

theorem slot_contrib_obj {x : Option shared_ptr}
    (hx : x = none ∨ x = some shared_ptr.nullHandle) (o : Nat) : objP o x = false := by
  rcases hx with rfl | rfl <;> rfl

theorem eq_null_of_slot {x : Option shared_ptr}
    (hx : x = none ∨ x = some shared_ptr.nullHandle)
    {t : shared_ptr} (ht : some t = x) : t = shared_ptr.nullHandle := by
  rcases hx with rfl | rfl
  · exact absurd ht (by simp)
  · exact Option.some.inj ht

theorem null_iff_handle {hp : Heap} {u : shared_ptr} (hu : HandleOK hp u) :
    (shared_ptr.nullHandle.pn.pn = u.pn.pn ↔ shared_ptr.nullHandle.px = u.px) := by
  show ((none : Option Nat) = u.pn.pn ↔ (none : Ptr) = u.px)
  constructor
  · intro h
    exact (hu.1.mpr h.symm).symm
  · intro h
    exact (hu.1.mp h.symm).symm

theorem wf_D_set {w : World}
    (hA : ∀ u, some u ∈ w.handles → HandleOK w.heap u)
    (hD : ∀ u v : shared_ptr, some u ∈ w.handles → some v ∈ w.handles →
      (u.pn.pn = v.pn.pn ↔ u.px = v.px))
    {x : Option shared_ptr} (hx : x = none ∨ x = some shared_ptr.nullHandle) (i : Nat) :
    ∀ u v : shared_ptr, some u ∈ w.handles.set i x → some v ∈ w.handles.set i x →
      (u.pn.pn = v.pn.pn ↔ u.px = v.px) := by
  intro u v hu hv
  rcases List.mem_or_eq_of_mem_set hu with hu' | hu' <;>
    rcases List.mem_or_eq_of_mem_set hv with hv' | hv'
  · exact hD u v hu' hv'
  · rw [eq_null_of_slot hx hv']
    have h1 := (hA u hu').1
    exact ⟨fun h => h1.mpr h, fun h => h1.mp h⟩
  · rw [eq_null_of_slot hx hu']
    exact null_iff_handle (hA v hv')
  · rw [eq_null_of_slot hx hu', eq_null_of_slot hx hv']
    exact Iff.rfl

theorem wf_after_release {w : World} (hw : WF w) {i : Nat} {s : shared_ptr}
    (hi : w.liveAt i = some s) {x : Option shared_ptr}
    (hx : x = none ∨ x = some shared_ptr.nullHandle) :
    WF ⟨w.handles.set i x, (s.releaseOp w.heap).2⟩ := by
  obtain ⟨hA, hB, hC, hD⟩ := hw
  have hilen : i < w.handles.length := liveAt_lt hi
  have hgi : w.handles.getD i none = some s := hi
  have hmem : some s ∈ w.handles := liveAt_mem hi
  obtain ⟨hcoh, hobjOK, hcntOK⟩ := hA s hmem
  rcases hps : s.pn.pn with _ | c₀
  · -- empty handle: release is a no-op on the heap
    have hpx : s.px = none := hcoh.mpr hps
    have hH : (s.releaseOp w.heap).2 = w.heap := by rw [releaseOp_empty hps]
    rw [hH, WF_mk]
    refine ⟨?_, ?_, ?_, wf_D_set hA hD hx i⟩
    · intro t ht
      rcases List.mem_or_eq_of_mem_set ht with ht' | ht'
      · exact hA t ht'
      · rw [eq_null_of_slot hx ht']
        exact handleOK_null _
    · intro c hc
      have hset := refcnt_set_add w.handles i x c hilen
      rw [hgi, slot_contrib_cnt hx] at hset
      have hcs : cntP c (some s) = false := by simp [cntP, hps]
      rw [hcs] at hset
      simp only [if_neg (by simp : ¬False), Bool.false_eq_true] at hset
      have he : refcnt (w.handles.set i x) c = refcnt w.handles c := by omega
      have hb := hB c hc
      exact ⟨hb.1, fun h0 => by rw [he]; exact hb.2 h0⟩
    · intro o ho
      have hset := objref_set_add w.handles i x o hilen
      rw [hgi, slot_contrib_obj hx] at hset
      have hos : objP o (some s) = false := by simp [objP, hpx]
      rw [hos] at hset
      simp only [Bool.false_eq_true, if_neg (by simp : ¬False)] at hset
      have he : objref (w.handles.set i x) o = objref w.handles o := by omega
      have hc' := hC o ho
      exact ⟨hc'.1, fun h0 => by rw [he]; exact hc'.2 h0⟩
  · -- owning handle
    have hpxs : ∃ o₀, s.px = some o₀ := by
      cases hpxe : s.px with
      | none =>
        have := hcoh.mp hpxe
        rw [hps] at this
        exact absurd this (by simp)
      | some o₀ => exact ⟨o₀, rfl⟩
    obtain ⟨o₀, hpxo⟩ := hpxs
    obtain ⟨hc₀len, hc₀fr⟩ := hcntOK c₀ hps
    obtain ⟨ho₀len, ho₀fr⟩ := hobjOK o₀ hpxo
    obtain ⟨hval, hn1⟩ := (hB c₀ hc₀len).2 hc₀fr
    have hoeq : objref w.handles o₀ = refcnt w.handles c₀ :=
      objref_eq_refcnt_of_WF ⟨hA, hB, hC, hD⟩ hmem hpxo hps
    have hrc_set : refcnt (w.handles.set i x) c₀ + 1 = refcnt w.handles c₀ := by
      have hset := refcnt_set_add w.handles i x c₀ hilen
      rw [hgi, slot_contrib_cnt hx] at hset
      have hcs : cntP c₀ (some s) = true := by simp [cntP, hps]
      rw [hcs] at hset
      simpa using hset
    have hor_set : objref (w.handles.set i x) o₀ + 1 = objref w.handles o₀ := by
      have hset := objref_set_add w.handles i x o₀ hilen
      rw [hgi, slot_contrib_obj hx] at hset
      have hos : objP o₀ (some s) = true := by simp [objP, hpxo]
      rw [hos] at hset
      simpa using hset
    have hrc_ne : ∀ c, c ≠ c₀ → refcnt (w.handles.set i x) c = refcnt w.handles c := by
      intro c hcc
      have hset := refcnt_set_add w.handles i x c hilen
      rw [hgi, slot_contrib_cnt hx] at hset
      have hcs : cntP c (some s) = false := by simp [cntP, hps, hcc, Ne.symm hcc]
      rw [hcs] at hset
      simpa using hset
    have hor_ne : ∀ o, o ≠ o₀ → objref (w.handles.set i x) o = objref w.handles o := by
      intro o hoo
      have hset := objref_set_add w.handles i x o hilen
      rw [hgi, slot_contrib_obj hx] at hset
      have hos : objP o (some s) = false := by simp [objP, hpxo, hoo, Ne.symm hoo]
      rw [hos] at hset
      simpa using hset
    by_cases hone : refcnt w.handles c₀ = 1
    · -- last owner: both the object and the counter cell are freed
      have hr1 : w.heap.readCnt c₀ = 1 := by
        rw [hval, hone]
        simp
      have hH : (s.releaseOp w.heap).2
          = ((w.heap.decCnt c₀).deleteObj (some o₀)).deleteCnt c₀ := by
        rw [releaseOp_owning_last hps hc₀len hr1, hpxo]
      rw [hH, WF_mk]
      have hrc0 : refcnt (w.handles.set i x) c₀ = 0 := by omega
      have hor0 : objref (w.handles.set i x) o₀ = 0 := by omega
      have hdlen : c₀ < ((w.heap.decCnt c₀).deleteObj (some o₀)).cnts.length := by
        rw [cnts_deleteObj, length_cnts_decCnt]
        exact hc₀len
      have hdolen : o₀ < (w.heap.decCnt c₀).objs.length := by
        rw [objs_decCnt]
        exact ho₀len
      have hH_cntlen :
          (((w.heap.decCnt c₀).deleteObj (some o₀)).deleteCnt c₀).cnts.length
            = w.heap.cnts.length := by
        rw [length_cnts_deleteCnt, cnts_deleteObj, length_cnts_decCnt]
      have hH_objlen :
          (((w.heap.decCnt c₀).deleteObj (some o₀)).deleteCnt c₀).objs.length
            = w.heap.objs.length := by
        rw [objs_deleteCnt, length_objs_deleteObj, objs_decCnt]
      have hH_cf_self :
          (((w.heap.decCnt c₀).deleteObj (some o₀)).deleteCnt c₀).cntFreed c₀ = 1 := by
        rw [cntFreed_deleteCnt_self _ _ hdlen, cntFreed_deleteObj, cntFreed_decCnt_self _ _ hc₀len,
          hc₀fr]
      have hH_cf_ne : ∀ c, c ≠ c₀ →
          (((w.heap.decCnt c₀).deleteObj (some o₀)).deleteCnt c₀).cntFreed c
            = w.heap.cntFreed c := by
        intro c hcc
        rw [cntFreed_deleteCnt_ne _ _ _ (Ne.symm hcc), cntFreed_deleteObj,
          cntFreed_decCnt_ne _ _ _ (Ne.symm hcc)]
      have hH_rd_ne : ∀ c, c ≠ c₀ →
          (((w.heap.decCnt c₀).deleteObj (some o₀)).deleteCnt c₀).readCnt c
            = w.heap.readCnt c := by
        intro c hcc
        rw [readCnt_deleteCnt_ne _ _ _ (Ne.symm hcc), readCnt_deleteObj,
          readCnt_decCnt_ne _ _ _ (Ne.symm hcc)]
      have hH_of_self :
          (((w.heap.decCnt c₀).deleteObj (some o₀)).deleteCnt c₀).objFreed o₀ = 1 := by
        rw [objFreed_deleteCnt, objFreed_deleteObj_self _ _ hdolen, objFreed_decCnt, ho₀fr]
      have hH_of_ne : ∀ o, o ≠ o₀ →
          (((w.heap.decCnt c₀).deleteObj (some o₀)).deleteCnt c₀).objFreed o
            = w.heap.objFreed o := by
        intro o hoo
        rw [objFreed_deleteCnt, objFreed_deleteObj_ne _ _ _ (Ne.symm hoo), objFreed_decCnt]
      refine ⟨?_, ?_, ?_, wf_D_set hA hD hx i⟩
      · intro t ht
        rcases List.mem_or_eq_of_mem_set ht with ht' | ht'
        · obtain ⟨ht1, ht2, ht3⟩ := hA t ht'
          refine ⟨ht1, ?_, ?_⟩
          · intro o hto
            have hne : o ≠ o₀ := by
              intro he
              rw [he] at hto
              exact not_mem_of_objref_eq_zero hor0 ht hto
            obtain ⟨hl, hf⟩ := ht2 o hto
            rw [hH_objlen, hH_of_ne o hne]
            exact ⟨hl, hf⟩
          · intro c htc
            have hne : c ≠ c₀ := by
              intro he
              rw [he] at htc
              exact not_mem_of_refcnt_eq_zero hrc0 ht htc
            obtain ⟨hl, hf⟩ := ht3 c htc
            rw [hH_cntlen, hH_cf_ne c hne]
            exact ⟨hl, hf⟩
        · rw [eq_null_of_slot hx ht']
          exact handleOK_null _
      · intro c hc
        rw [hH_cntlen] at hc
        by_cases hcc : c = c₀
        · subst hcc
          refine ⟨by rw [hH_cf_self], ?_⟩
          intro h0
          rw [hH_cf_self] at h0
          exact absurd h0 one_ne_zero
        · have hb := hB c hc
          rw [hH_cf_ne c hcc, hH_rd_ne c hcc, hrc_ne c hcc]
          exact hb
      · intro o ho
        rw [hH_objlen] at ho
        by_cases hoo : o = o₀
        · subst hoo
          refine ⟨by rw [hH_of_self], ?_⟩
          intro h0
          rw [hH_of_self] at h0
          exact absurd h0 one_ne_zero
        · have hc' := hC o ho
          rw [hH_of_ne o hoo, hor_ne o hoo]
          exact hc'
    · -- not the last owner: only the counter is decremented
      have hr1 : w.heap.readCnt c₀ ≠ 1 := by
        rw [hval]
        intro hcontra
        apply hone
        exact_mod_cast hcontra
      have hH : (s.releaseOp w.heap).2 = w.heap.decCnt c₀ := by
        rw [releaseOp_owning_not_last hps hc₀len hr1]
      rw [hH, WF_mk]
      have hn2 : 2 ≤ refcnt w.handles c₀ := by omega
      refine ⟨?_, ?_, ?_, wf_D_set hA hD hx i⟩
      · intro t ht
        rcases List.mem_or_eq_of_mem_set ht with ht' | ht'
        · obtain ⟨ht1, ht2, ht3⟩ := hA t ht'
          refine ⟨ht1, ?_, ?_⟩
          · intro o hto
            obtain ⟨hl, hf⟩ := ht2 o hto
            rw [objs_decCnt]
            exact ⟨hl, by rw [objFreed_decCnt]; exact hf⟩
          · intro c htc
            obtain ⟨hl, hf⟩ := ht3 c htc
            rw [length_cnts_decCnt]
            refine ⟨hl, ?_⟩
            by_cases hcc : c = c₀
            · subst hcc
              rw [cntFreed_decCnt_self _ _ hc₀len]
              exact hf
            · rw [cntFreed_decCnt_ne _ _ _ (Ne.symm hcc)]
              exact hf
        · rw [eq_null_of_slot hx ht']
          exact handleOK_null _
      · intro c hc
        rw [length_cnts_decCnt] at hc
        by_cases hcc : c = c₀
        · subst hcc
          rw [cntFreed_decCnt_self _ _ hc₀len, readCnt_decCnt_self _ _ hc₀len]
          refine ⟨by omega, ?_⟩
          intro _
          have h2 := hrc_set
          constructor
          · rw [hval]
            omega
          · omega
        · have hb := hB c hc
          rw [cntFreed_decCnt_ne _ _ _ (Ne.symm hcc), readCnt_decCnt_ne _ _ _ (Ne.symm hcc),
            hrc_ne c hcc]
          exact hb
      · intro o ho
        rw [objs_decCnt] at ho
        by_cases hoo : o = o₀
        · subst hoo
          rw [objFreed_decCnt]
          refine ⟨(hC o ho).1, ?_⟩
          intro _
          omega
        · have hc' := hC o ho
          rw [objFreed_decCnt, hor_ne o hoo]
          exact hc'

theorem releaseOp_fst (s : shared_ptr) (h : Heap) :
    (s.releaseOp h).1 = shared_ptr.nullHandle := by
  obtain ⟨px, ⟨pn⟩⟩ := s
  cases pn with
  | none => rfl
  | some c =>
    simp only [shared_ptr.releaseOp, shared_ptr_count.release]
    split <;> rfl

theorem set_concat_self {α : Type} (l : List α) (a b : α) :
    (l ++ [a]).set l.length b = l ++ [b] := by
  rw [List.set_append]
  simp

theorem wf_D_concat {w : World}
    (hA : ∀ u, some u ∈ w.handles → HandleOK w.heap u)
    (hD : ∀ u v : shared_ptr, some u ∈ w.handles → some v ∈ w.handles →
      (u.pn.pn = v.pn.pn ↔ u.px = v.px))
    {y : shared_ptr} (hy : some y ∈ w.handles ∨ y = shared_ptr.nullHandle) :
    ∀ u v : shared_ptr, some u ∈ w.handles ++ [some y] → some v ∈ w.handles ++ [some y] →
      (u.pn.pn = v.pn.pn ↔ u.px = v.px) := by
  have hyiff : ∀ u, some u ∈ w.handles → (u.pn.pn = y.pn.pn ↔ u.px = y.px) := by
    intro u hu
    rcases hy with hy' | rfl
    · exact hD u y hu hy'
    · have h1 := (hA u hu).1
      exact ⟨fun h => h1.mpr h, fun h => h1.mp h⟩
  intro u v hu hv
  rcases List.mem_append.mp hu with hu' | hu' <;> rcases List.mem_append.mp hv with hv' | hv'
  · exact hD u v hu' hv'
  · rw [List.mem_singleton] at hv'
    rw [Option.some.inj hv']
    exact hyiff u hu'
  · rw [List.mem_singleton] at hu'
    rw [Option.some.inj hu']
    exact ⟨fun h => ((hyiff v hv').mp h.symm).symm, fun h => ((hyiff v hv').mpr h.symm).symm⟩
  · rw [List.mem_singleton] at hu'
    rw [List.mem_singleton] at hv'
    rw [Option.some.inj hu', Option.some.inj hv']
    exact ⟨fun _ => rfl, fun _ => rfl⟩

theorem wf_after_copy {w : World} (hw : WF w) {src : Nat} {s : shared_ptr}
    (hi : w.liveAt src = some s) {t : shared_ptr} {h1 : Heap}
    (hc : s.copyCtor true w.heap = .ok (t, h1)) :
    WF ⟨w.handles ++ [some t], h1⟩ := by
  obtain ⟨hA, hB, hC, hD⟩ := hw
  have hmem : some s ∈ w.handles := liveAt_mem hi
  obtain ⟨hcoh, hobjOK, hcntOK⟩ := hA s hmem
  rcases hps : s.pn.pn with _ | c₀
  · -- empty source: the copy is the empty handle and the heap is unchanged
    have hpx : s.px = none := hcoh.mpr hps
    rw [copyCtor_empty hpx hps true w.heap] at hc
    simp only [Res.ok.injEq, Prod.mk.injEq] at hc
    obtain ⟨ht, hh⟩ := hc
    subst ht
    subst hh
    rw [WF_mk]
    refine ⟨?_, ?_, ?_, wf_D_concat hA hD (Or.inr rfl)⟩
    · intro u hu
      rcases List.mem_append.mp hu with hu' | hu'
      · exact hA u hu'
      · rw [List.mem_singleton] at hu'
        rw [Option.some.inj hu']
        exact handleOK_null _
    · intro c hcl
      rw [refcnt_concat]
      simpa using hB c hcl
    · intro o hol
      rw [objref_concat]
      simpa using hC o hol
  · -- owning source: the copy shares the counter and increments it
    have hpxs : ∃ o₀, s.px = some o₀ := by
      cases hpxe : s.px with
      | none =>
        have := hcoh.mp hpxe
        rw [hps] at this
        exact absurd this (by simp)
      | some o₀ => exact ⟨o₀, rfl⟩
    obtain ⟨o₀, hpxo⟩ := hpxs
    obtain ⟨hc₀len, hc₀fr⟩ := hcntOK c₀ hps
    obtain ⟨ho₀len, ho₀fr⟩ := hobjOK o₀ hpxo
    obtain ⟨hval, hn1⟩ := (hB c₀ hc₀len).2 hc₀fr
    have hnz : w.heap.readCnt c₀ ≠ 0 := by
      rw [hval]
      exact_mod_cast (by omega : refcnt w.handles c₀ ≠ 0)
    rw [copyCtor_owning hpxo hps true hnz] at hc
    simp only [Res.ok.injEq, Prod.mk.injEq] at hc
    obtain ⟨ht, hh⟩ := hc
    subst ht
    subst hh
    have hts : s = (⟨some o₀, ⟨some c₀⟩⟩ : shared_ptr) := by
      obtain ⟨px, ⟨pn⟩⟩ := s
      simp only at hpxo hps
      rw [hpxo, hps]
    rw [WF_mk]
    refine ⟨?_, ?_, ?_, wf_D_concat hA hD (Or.inl (hts ▸ hmem))⟩
    · intro u hu
      rcases List.mem_append.mp hu with hu' | hu'
      · obtain ⟨hu1, hu2, hu3⟩ := hA u hu'
        refine ⟨hu1, ?_, ?_⟩
        · intro o huo
          obtain ⟨hl, hf⟩ := hu2 o huo
          rw [objs_incCnt, objFreed_incCnt]
          exact ⟨hl, hf⟩
        · intro c huc
          obtain ⟨hl, hf⟩ := hu3 c huc
          rw [length_cnts_incCnt]
          refine ⟨hl, ?_⟩
          by_cases hcc : c = c₀
          · subst hcc
            rw [cntFreed_incCnt_self _ _ hc₀len]
            exact hf
          · rw [cntFreed_incCnt_ne _ _ _ (Ne.symm hcc)]
            exact hf
      · rw [List.mem_singleton] at hu'
        rw [Option.some.inj hu']
        refine ⟨by simp, ?_, ?_⟩
        · intro o huo
          have ho' : o₀ = o := Option.some.inj huo
          subst ho'
          rw [objs_incCnt, objFreed_incCnt]
          exact ⟨ho₀len, ho₀fr⟩
        · intro c huc
          have hc' : c₀ = c := Option.some.inj huc
          subst hc'
          rw [length_cnts_incCnt, cntFreed_incCnt_self _ _ hc₀len]
          exact ⟨hc₀len, hc₀fr⟩
    · intro c hcl
      rw [length_cnts_incCnt] at hcl
      rw [refcnt_concat]
      by_cases hcc : c = c₀
      · subst hcc
        rw [cntFreed_incCnt_self _ _ hc₀len, readCnt_incCnt_self _ _ hc₀len, hc₀fr, hval]
        have hone : cntP c (some ⟨some o₀, ⟨some c⟩⟩) = true := by simp [cntP]
        rw [hone, if_pos rfl]
        exact ⟨by omega, fun _ => ⟨by omega, by omega⟩⟩
      · rw [cntFreed_incCnt_ne _ _ _ (Ne.symm hcc), readCnt_incCnt_ne _ _ _ (Ne.symm hcc)]
        have hzero : cntP c (some ⟨some o₀, ⟨some c₀⟩⟩) = false := by
          simp [cntP]
          exact Ne.symm hcc
        rw [hzero]
        simpa using hB c hcl
    · intro o hol
      rw [objs_incCnt] at hol
      rw [objref_concat, objFreed_incCnt]
      by_cases hoo : o = o₀
      · subst hoo
        have hone : objP o (some ⟨some o, ⟨some c₀⟩⟩) = true := by simp [objP]
        rw [hone, if_pos rfl]
        exact ⟨(hC o hol).1, fun _ => by omega⟩
      · have hzero : objP o (some ⟨some o₀, ⟨some c₀⟩⟩) = false := by
          simp [objP]
          exact Ne.symm hoo
        rw [hzero]
        simpa using hC o hol

theorem objFreed_mk (l : List Nat) (cs : List CntCell) (o : Nat) :
    (Heap.mk l cs).objFreed o = l.getD o 0 := rfl

theorem readCnt_mk (l : List Nat) (cs : List CntCell) (c : Nat) :
    (Heap.mk l cs).readCnt c = (cs.getD c ⟨0, 0⟩).val := rfl

theorem cntFreed_mk (l : List Nat) (cs : List CntCell) (c : Nat) :
    (Heap.mk l cs).cntFreed c = (cs.getD c ⟨0, 0⟩).freed := rfl

theorem no_live_cnt_ref_at_end {w : World}
    (hA : ∀ u, some u ∈ w.handles → HandleOK w.heap u) :
    ∀ u, some u ∈ w.handles → u.pn.pn ≠ some w.heap.cnts.length := by
  intro u hu he
  have := ((hA u hu).2.2 _ he).1
  omega

theorem no_live_obj_ref_at_end {w : World}
    (hA : ∀ u, some u ∈ w.handles → HandleOK w.heap u) :
    ∀ u, some u ∈ w.handles → u.px ≠ some w.heap.objs.length := by
  intro u hu he
  have := ((hA u hu).2.1 _ he).1
  omega

theorem wf_after_fresh_ok {w : World} (hw : WF w) :
    WF ⟨w.handles ++ [some ⟨some w.heap.objs.length, ⟨some w.heap.cnts.length⟩⟩],
        ⟨w.heap.objs ++ [0], w.heap.cnts ++ [⟨1, 0⟩]⟩⟩ := by
  obtain ⟨hA, hB, hC, hD⟩ := hw
  have hrz : refcnt w.handles w.heap.cnts.length = 0 :=
    refcnt_eq_zero_of_ge ⟨hA, hB, hC, hD⟩ le_rfl
  have hoz : objref w.handles w.heap.objs.length = 0 :=
    objref_eq_zero_of_ge ⟨hA, hB, hC, hD⟩ le_rfl
  have hnotc := no_live_cnt_ref_at_end hA
  have hnoto := no_live_obj_ref_at_end hA
  rw [WF_mk]
  refine ⟨?_, ?_, ?_, ?_⟩
  · intro u hu
    rcases List.mem_append.mp hu with hu' | hu'
    · obtain ⟨hu1, hu2, hu3⟩ := hA u hu'
      refine ⟨hu1, ?_, ?_⟩
      · intro o huo
        obtain ⟨hl, hf⟩ := hu2 o huo
        rw [objFreed_mk]
        constructor
        · simp only [List.length_append, List.length_singleton]
          omega
        · rw [getD_concat_lt _ _ _ _ hl]
          exact hf
      · intro c huc
        obtain ⟨hl, hf⟩ := hu3 c huc
        rw [cntFreed_mk]
        constructor
        · simp only [List.length_append, List.length_singleton]
          omega
        · rw [getD_concat_lt _ _ _ _ hl]
          exact hf
    · rw [List.mem_singleton] at hu'
      rw [Option.some.inj hu']
      refine ⟨by simp, ?_, ?_⟩
      · intro o huo
        have ho' : w.heap.objs.length = o := Option.some.inj huo
        subst ho'
        rw [objFreed_mk, getD_concat_self]
        constructor
        · simp only [List.length_append, List.length_singleton]
          omega
        · rfl
      · intro c huc
        have hc' : w.heap.cnts.length = c := Option.some.inj huc
        subst hc'
        rw [cntFreed_mk, getD_concat_self]
        constructor
        · simp only [List.length_append, List.length_singleton]
          omega
        · rfl
  · intro c hcl
    simp only [List.length_append, List.length_singleton] at hcl
    rw [refcnt_concat, cntFreed_mk, readCnt_mk]
    by_cases hcc : c = w.heap.cnts.length
    · rw [hcc, getD_concat_self]
      have hone : cntP w.heap.cnts.length
          (some ⟨some w.heap.objs.length, ⟨some w.heap.cnts.length⟩⟩) = true := by
        simp [cntP]
      rw [hone, if_pos rfl, hrz]
      dsimp only
      exact ⟨by omega, fun _ => ⟨by omega, by omega⟩⟩
    · have hlt : c < w.heap.cnts.length := by omega
      rw [getD_concat_lt _ _ _ _ hlt]
      have hzero : cntP c (some ⟨some w.heap.objs.length, ⟨some w.heap.cnts.length⟩⟩)
          = false := by
        simp [cntP]
        exact Ne.symm hcc
      rw [hzero, if_neg (by simp), Nat.add_zero]
      exact hB c hlt
  · intro o hol
    simp only [List.length_append, List.length_singleton] at hol
    rw [objref_concat, objFreed_mk]
    by_cases hoo : o = w.heap.objs.length
    · rw [hoo, getD_concat_self]
      have hone : objP w.heap.objs.length
          (some ⟨some w.heap.objs.length, ⟨some w.heap.cnts.length⟩⟩) = true := by
        simp [objP]
      rw [hone, if_pos rfl]
      exact ⟨by omega, fun _ => by omega⟩
    · have hlt : o < w.heap.objs.length := by omega
      rw [getD_concat_lt _ _ _ _ hlt]
      have hzero : objP o (some ⟨some w.heap.objs.length, ⟨some w.heap.cnts.length⟩⟩)
          = false := by
        simp [objP]
        exact Ne.symm hoo
      rw [hzero, if_neg (by simp), Nat.add_zero]
      exact hC o hlt
  · intro u v hu hv
    rcases List.mem_append.mp hu with hu' | hu' <;> rcases List.mem_append.mp hv with hv' | hv'
    · exact hD u v hu' hv'
    · rw [List.mem_singleton] at hv'
      rw [Option.some.inj hv']
      exact iff_of_false (hnotc u hu') (hnoto u hu')
    · rw [List.mem_singleton] at hu'
      rw [Option.some.inj hu']
      exact iff_of_false (fun h => hnotc v hv' h.symm) (fun h => hnoto v hv' h.symm)
    · rw [List.mem_singleton] at hu'
      rw [List.mem_singleton] at hv'
      rw [Option.some.inj hu', Option.some.inj hv']
      exact ⟨fun _ => rfl, fun _ => rfl⟩

theorem wf_after_fresh_fail {w : World} (hw : WF w) :
    WF ⟨w.handles, ⟨w.heap.objs ++ [1], w.heap.cnts⟩⟩ := by
  obtain ⟨hA, hB, hC, hD⟩ := hw
  rw [WF_mk]
  refine ⟨?_, hB, ?_, hD⟩
  · intro u hu
    obtain ⟨hu1, hu2, hu3⟩ := hA u hu
    refine ⟨hu1, ?_, hu3⟩
    intro o huo
    obtain ⟨hl, hf⟩ := hu2 o huo
    rw [objFreed_mk]
    constructor
    · simp only [List.length_append, List.length_singleton]
      omega
    · rw [getD_concat_lt _ _ _ _ hl]
      exact hf
  · intro o hol
    simp only [List.length_append, List.length_singleton] at hol
    rw [objFreed_mk]
    by_cases hoo : o = w.heap.objs.length
    · rw [hoo, getD_concat_self]
      exact ⟨by omega, fun h0 => absurd h0 one_ne_zero⟩
    · have hlt : o < w.heap.objs.length := by omega
      rw [getD_concat_lt _ _ _ _ hlt]
      exact hC o hlt

theorem wf_move_slot {hs : List (Option shared_ptr)} {hp : Heap} {y : Option shared_ptr}
    (hwf : WF ⟨hs ++ [y], hp⟩) {i : Nat} (hilen : i < hs.length)
    (hnone : hs.getD i none = none) :
    WF ⟨hs.set i y, hp⟩ := by
  rw [WF_mk] at hwf
  obtain ⟨hA, hB, hC, hD⟩ := hwf
  have hmemmap : ∀ z, z ∈ hs.set i y → z ∈ hs ++ [y] := by
    intro z hz
    rcases List.mem_or_eq_of_mem_set hz with h | h
    · exact List.mem_append.mpr (Or.inl h)
    · rw [h]
      exact List.mem_append.mpr (Or.inr (List.mem_singleton.mpr rfl))
  have hcnt : ∀ c, refcnt (hs.set i y) c = refcnt (hs ++ [y]) c := by
    intro c
    have h1 := refcnt_set_add hs i y c hilen
    rw [hnone, cntP_none] at h1
    rw [refcnt_concat]
    simpa using h1
  have hobj : ∀ o, objref (hs.set i y) o = objref (hs ++ [y]) o := by
    intro o
    have h1 := objref_set_add hs i y o hilen
    rw [hnone, objP_none] at h1
    rw [objref_concat]
    simpa using h1
  rw [WF_mk]
  refine ⟨fun u hu => hA u (hmemmap _ hu), ?_, ?_,
    fun u v hu hv => hD u v (hmemmap _ hu) (hmemmap _ hv)⟩
  · intro c hcl
    rw [hcnt c]
    exact hB c hcl
  · intro o hol
    rw [hobj o]
    exact hC o hol

theorem wf_after_assign {w : World} (hw : WF w) {dst src : Nat} {d s : shared_ptr}
    (hd : w.liveAt dst = some d) (hs : w.liveAt src = some s)
    {d1 : shared_ptr} {h1 : Heap}
    (ha : shared_ptr.assignOp d s true w.heap = .ok (d1, h1)) :
    WF ⟨w.handles.set dst (some d1), h1⟩ := by
  cases hcc : s.copyCtor true w.heap with
  | assertViolation =>
    rw [shared_ptr.assignOp, hcc] at ha
    exact absurd ha (by simp)
  | oom e =>
    rw [shared_ptr.assignOp, hcc] at ha
    exact absurd ha (by simp)
  | ok r =>
    obtain ⟨t, hmid⟩ := r
    rw [shared_ptr.assignOp, hcc] at ha
    simp only [Res.ok.injEq, Prod.mk.injEq] at ha
    obtain ⟨hat, hah⟩ := ha
    subst hat
    subst hah
    have hw1 : WF ⟨w.handles ++ [some t], hmid⟩ := wf_after_copy hw hs hcc
    have hdlen : dst < w.handles.length := liveAt_lt hd
    have hd1 : (⟨w.handles ++ [some t], hmid⟩ : World).liveAt dst = some d := by
      show (w.handles ++ [some t]).getD dst none = some d
      rw [getD_concat_lt _ _ _ _ hdlen]
      exact hd
    have hw2 := wf_after_release hw1 hd1 (Or.inl rfl)
    rw [List.set_append_left _ _ hdlen] at hw2
    have hw3 := wf_move_slot hw2 (by rw [List.length_set]; exact hdlen)
      (getD_set_self _ _ _ _ hdlen)
    rw [List.set_set] at hw3
    exact hw3

/-- Evaluation of a failing `fresh`: the freshly allocated object is deleted
again by `shared_ptr_count::acquire` before the exception propagates. -/
theorem step_fresh_fail (w : World) :
    w.step (.fresh false) = ⟨w.handles, ⟨w.heap.objs ++ [1], w.heap.cnts⟩⟩ := by
  show (⟨w.handles,
      Heap.deleteObj ⟨w.heap.objs ++ [0], w.heap.cnts⟩ (some w.heap.objs.length)⟩ : World) = _
  simp only [Heap.deleteObj]
  rw [getD_concat_self, set_concat_self]

/-- Well-formedness is preserved by every operation. -/
theorem WF_step {w : World} (hw : WF w) (op : Op) : WF (w.step op) := by
  cases op with
  | fresh allocOk =>
    cases allocOk with
    | true => exact wf_after_fresh_ok hw
    | false =>
      rw [step_fresh_fail]
      exact wf_after_fresh_fail hw
  | copyCon src =>
    cases hL : w.liveAt src with
    | none =>
      simp only [World.step, hL]
      exact hw
    | some s =>
      cases hcc : s.copyCtor true w.heap with
      | ok r =>
        obtain ⟨t, h1⟩ := r
        simp only [World.step, hL, hcc]
        exact wf_after_copy hw hL hcc
      | assertViolation =>
        simp only [World.step, hL, hcc]
        exact hw
      | oom e =>
        simp only [World.step, hL, hcc]
        exact hw
  | assign dst src =>
    cases hLd : w.liveAt dst with
    | none =>
      simp only [World.step, hLd]
      exact hw
    | some d =>
      cases hLs : w.liveAt src with
      | none =>
        simp only [World.step, hLd, hLs]
        exact hw
      | some s =>
        cases ha : shared_ptr.assignOp d s true w.heap with
        | ok r =>
          obtain ⟨d1, h1⟩ := r
          simp only [World.step, hLd, hLs, ha]
          exact wf_after_assign hw hLd hLs ha
        | assertViolation =>
          simp only [World.step, hLd, hLs, ha]
          exact hw
        | oom e =>
          simp only [World.step, hLd, hLs, ha]
          exact hw
  | reset i =>
    cases hL : w.liveAt i with
    | none =>
      simp only [World.step, hL]
      exact hw
    | some s =>
      simp only [World.step, hL]
      rw [show (s.reset w.heap).1 = shared_ptr.nullHandle from releaseOp_fst s w.heap]
      exact wf_after_release hw hL (Or.inr rfl)
  | destroy i =>
    cases hL : w.liveAt i with
    | none =>
      simp only [World.step, hL]
      exact hw
    | some s =>
      simp only [World.step, hL]
      exact wf_after_release hw hL (Or.inl rfl)

/-- The empty world is well-formed. -/
theorem WF_init : WF World.init := by
  rw [show World.init = ⟨[], ⟨[], []⟩⟩ from rfl, WF_mk]
  refine ⟨?_, ?_, ?_, ?_⟩
  · intro s hsm
    exact absurd hsm (by simp)
  · intro c hc
    simp at hc
  · intro o ho
    simp at ho
  · intro s t hsm _
    exact absurd hsm (by simp)

/-- Well-formedness is preserved by every operation sequence. -/
theorem WF_run {w : World} (hw : WF w) (ops : List Op) : WF (w.run ops) := by
  induction ops generalizing w with
  | nil => exact hw
  | cons op rest ih => exact ih (WF_step hw op)

/-! Remaining operation characterizations used by the claim theorems. -/

theorem use_count_some {s : shared_ptr} {c : Nat} (hc : s.pn.pn = some c) (h : Heap) :
    s.use_count h = h.readCnt c := by
  obtain ⟨px, ⟨pn⟩⟩ := s
  simp only at hc
  subst hc
  rfl

theorem use_count_none {s : shared_ptr} (hc : s.pn.pn = none) (h : Heap) :
    s.use_count h = 0 := by
  obtain ⟨px, ⟨pn⟩⟩ := s
  simp only at hc
  subst hc
  rfl

theorem copyCtor_none_px {s : shared_ptr} (hpx : s.px = none) (allocOk : Bool) (h : Heap) :
    s.copyCtor allocOk h = .ok (⟨none, s.pn⟩, h) := by
  obtain ⟨px, pn⟩ := s
  simp only at hpx
  subst hpx
  simp only [shared_ptr.copyCtor]
  rw [if_pos (Or.inl trivial)]
  rfl

theorem copyCtor_incoherent {s : shared_ptr} {o : Nat} (hpx : s.px = some o)
    (hpn : s.pn.pn = none) (allocOk : Bool) (h : Heap) :
    s.copyCtor allocOk h = .assertViolation := by
  obtain ⟨px, ⟨pn⟩⟩ := s
  simp only at hpx hpn
  subst hpx
  subst hpn
  simp only [shared_ptr.copyCtor]
  rw [if_neg]
  intro hor
  rcases hor with hl | hr
  · exact absurd hl (by simp)
  · exact hr rfl

theorem copyCtor_dead_cell {s : shared_ptr} {o c : Nat} {h : Heap} (hpx : s.px = some o)
    (hpn : s.pn.pn = some c) (hz : h.readCnt c = 0) (allocOk : Bool) :
    s.copyCtor allocOk h = .assertViolation := by
  obtain ⟨px, ⟨pn⟩⟩ := s
  simp only at hpx hpn
  subst hpx
  subst hpn
  simp only [shared_ptr.copyCtor]
  rw [if_neg]
  intro hor
  rcases hor with hl | hr
  · exact absurd hl (by simp)
  · exact hr (by simpa [shared_ptr_count.use_count] using hz)

theorem releaseOp_objFreed_other {s : shared_ptr} (h : Heap) {q : Nat}
    (hne : s.px ≠ some q) :
    (s.releaseOp h).2.objFreed q = h.objFreed q
    ∧ (s.releaseOp h).2.objs.length = h.objs.length := by
  obtain ⟨px, ⟨pn⟩⟩ := s
  simp only at hne
  cases pn with
  | none => exact ⟨rfl, rfl⟩
  | some c =>
    simp only [shared_ptr.releaseOp, shared_ptr_count.release]
    by_cases hz : (h.decCnt c).readCnt c = 0
    · rw [if_pos hz]
      have hobjf : ((h.decCnt c).deleteObj px).objFreed q = h.objFreed q := by
        cases hpx : px with
        | none => rw [deleteObj_none, objFreed_decCnt]
        | some o =>
          have ho : o ≠ q := by
            intro he
            rw [hpx, he] at hne
            exact hne rfl
          rw [objFreed_deleteObj_ne _ _ _ ho, objFreed_decCnt]
      constructor
      · rw [objFreed_deleteCnt, hobjf]
      · rw [objs_deleteCnt, length_objs_deleteObj, objs_decCnt]
    · rw [if_neg hz]
      exact ⟨objFreed_decCnt h c q, by rw [objs_decCnt]⟩

/-- C2 counterexample: for the handle holding object 0 as sole owner, the
call `reset(p)` adopting the fresh object 1 under counter-allocation failure
leaves the handle EMPTY with its previous object 0 already destroyed
(its `delete` count rises from 0 to 1), and object 1 destroyed as well —
contradicting the claim that the handle still holds its previous object and
that the previous object has not been released. -/
theorem C2_counterexample :
    shared_ptr.resetPtr ⟨some 0, ⟨some 0⟩⟩ (some 1) false ⟨[0, 0], [⟨1, 0⟩]⟩
      = .oom (⟨none, ⟨none⟩⟩, ⟨[1, 1], [⟨0, 1⟩]⟩)
    ∧ (⟨[0, 0], [⟨1, 0⟩]⟩ : Heap).objFreed 0 = 0
    ∧ (⟨[1, 1], [⟨0, 1⟩]⟩ : Heap).objFreed 0 = 1 :=
  ⟨rfl, rfl, rfl⟩

/-- C2 (amended): if `reset(p)` on a SharedOwner fails at the
counter-allocation step, then afterwards the handle is EMPTY — its previous
ownership was already released by the `release()` that `reset` runs first
(destroying the previous object when the handle was its last owner) — and the
adopted object `p` has been destroyed.  The handle does not retain its
previous object. -/
theorem C2_reset_oom_empties_after_release (s : shared_ptr) (q : Nat) (h : Heap)
    (hne : s.px ≠ some q) :
    shared_ptr.resetPtr s (some q) false h
      = .oom (shared_ptr.nullHandle, ((s.releaseOp h).2).deleteObj (some q))
    ∧ (q < h.objs.length →
        (((s.releaseOp h).2).deleteObj (some q)).objFreed q = h.objFreed q + 1)
    ∧ (∀ o c, s.px = some o → s.pn.pn = some c → c < h.cnts.length →
        h.readCnt c = 1 → o < h.objs.length →
        ((s.releaseOp h).2).objFreed o = h.objFreed o + 1) := by
  refine ⟨?_, ?_, ?_⟩
  · simp only [shared_ptr.resetPtr]
    rw [if_pos (Or.inr hne)]
    rw [releaseOp_fst]
    rfl
  · intro hq
    obtain ⟨hOF, hLen⟩ := releaseOp_objFreed_other h hne
    rw [objFreed_deleteObj_self _ _ (by rw [hLen]; exact hq), hOF]
  · intro o c hpx hpn hclen hr1 holen
    rw [releaseOp_owning_last hpn hclen hr1, hpx]
    rw [objFreed_deleteCnt, objFreed_deleteObj_self _ _ (by rw [objs_decCnt]; exact holen),
      objFreed_decCnt]

/-- Witness for C2's amended theorem at a concrete input. -/
theorem C2_witness :
    (⟨some 0, ⟨some 0⟩⟩ : shared_ptr).px ≠ some 1
    ∧ shared_ptr.resetPtr ⟨some 0, ⟨some 0⟩⟩ (some 1) false ⟨[0, 0], [⟨1, 0⟩]⟩
        = .oom (shared_ptr.nullHandle,
            (((⟨some 0, ⟨some 0⟩⟩ : shared_ptr).releaseOp ⟨[0, 0], [⟨1, 0⟩]⟩).2).deleteObj
              (some 1))
    ∧ (((⟨some 0, ⟨some 0⟩⟩ : shared_ptr).releaseOp ⟨[0, 0], [⟨1, 0⟩]⟩).2).objFreed 0
        = (⟨[0, 0], [⟨1, 0⟩]⟩ : Heap).objFreed 0 + 1 :=
  ⟨by decide,
    (C2_reset_oom_empties_after_release ⟨some 0, ⟨some 0⟩⟩ 1 ⟨[0, 0], [⟨1, 0⟩]⟩
      (by decide)).1,
    (C2_reset_oom_empties_after_release ⟨some 0, ⟨some 0⟩⟩ 1 ⟨[0, 0], [⟨1, 0⟩]⟩
      (by decide)).2.2 0 0 rfl rfl (by decide) (by decide) (by decide)⟩

/-- C5: after the UniqueOwner transfer `b = a` (copy-as-transfer through the
by-value assignment operator) on distinct handles, `a` is empty, `b` holds
exactly the pointer `a` held before, and the object `b` previously held is
destroyed exactly once (and an object still held by `a` is not touched). -/
theorem C5_unique_transfer (a b : unique_ptr) (h : Heap) :
    unique_ptr.assignOp b a h = (⟨a.px⟩, ⟨none⟩, h.deleteObj b.px)
    ∧ (∀ o, b.px = some o → o < h.objs.length → h.objFreed o = 0 →
        (h.deleteObj b.px).objFreed o = 1)
    ∧ (∀ o, a.px = some o → a.px ≠ b.px →
        (h.deleteObj b.px).objFreed o = h.objFreed o) := by
  refine ⟨rfl, ?_, ?_⟩
  · intro o hb hlt h0
    rw [hb, objFreed_deleteObj_self _ _ hlt, h0]
  · intro o ha hab
    cases hbp : b.px with
    | none => rw [deleteObj_none]
    | some ob =>
      have hne : ob ≠ o := by
        intro he
        rw [hbp, he, ← ha] at hab
        exact hab rfl
      rw [objFreed_deleteObj_ne _ _ _ hne]

/-- Witness for C5 at concrete handles. -/
theorem C5_witness :
    unique_ptr.assignOp ⟨some 1⟩ ⟨some 0⟩ ⟨[0, 0], []⟩
      = (⟨some 0⟩, ⟨none⟩, (⟨[0, 0], []⟩ : Heap).deleteObj (some 1))
    ∧ ((⟨[0, 0], []⟩ : Heap).deleteObj (some 1)).objFreed 1 = 1 :=
  ⟨(C5_unique_transfer ⟨some 0⟩ ⟨some 1⟩ ⟨[0, 0], []⟩).1,
    (C5_unique_transfer ⟨some 0⟩ ⟨some 1⟩ ⟨[0, 0], []⟩).2.1 1 rfl (by decide) (by decide)⟩

/-- C7: constructing a SharedOwner from a raw pointer adopts it: for a
non-null pointer a fresh counter initialized to 1 is allocated and the new
handle references both; if the counter allocation fails, the adopted object
is deleted first and the failure escapes as an exception (no leak, no
handle); for a null pointer the handle stays empty and no counter is
allocated (the heap is untouched). -/
theorem C7_ctor_from_raw (q : Nat) (h : Heap) :
    (∀ allocOk : Bool, shared_ptr.ctorFromPtr none allocOk h = .ok (shared_ptr.nullHandle, h))
    ∧ shared_ptr.ctorFromPtr (some q) true h
        = .ok (⟨some q, ⟨some h.cnts.length⟩⟩, ⟨h.objs, h.cnts ++ [⟨1, 0⟩]⟩)
    ∧ shared_ptr.ctorFromPtr (some q) false h = .error (h.deleteObj (some q))
    ∧ (q < h.objs.length → (h.deleteObj (some q)).objFreed q = h.objFreed q + 1) := by
  refine ⟨fun _ => rfl, rfl, rfl, ?_⟩
  intro hlt
  rw [objFreed_deleteObj_self _ _ hlt]

/-- Witness for C7 at a concrete heap. -/
theorem C7_witness :
    (0 : Nat) < (⟨[0], []⟩ : Heap).objs.length
    ∧ ((⟨[0], []⟩ : Heap).deleteObj (some 0)).objFreed 0
        = (⟨[0], []⟩ : Heap).objFreed 0 + 1 :=
  ⟨by decide, (C7_ctor_from_raw 0 ⟨[0], []⟩).2.2.2 (by decide)⟩

/-- C8: calling `reset(p)` with `p` equal to the currently held (non-null)
pointer trips the self-reset assertion `SHARED_ASSERT((NULL == p) || (px != p))`,
for SharedOwner and UniqueOwner alike, rather than silently succeeding or
double-freeing the object (nothing is released on this path). -/
theorem C8_self_reset_asserts :
    (∀ (s : shared_ptr) (q : Nat) (allocOk : Bool) (h : Heap), s.px = some q →
      s.resetPtr (some q) allocOk h = .assertViolation)
    ∧ (∀ (u : unique_ptr) (q : Nat) (h : Heap), u.px = some q →
      u.resetPtr (some q) h = .assertViolation) := by
  constructor
  · intro s q allocOk h hpx
    have hcond : ¬((some q : Ptr) = none ∨ s.px ≠ some q) := by
      push_neg
      exact ⟨by simp, hpx⟩
    simp only [shared_ptr.resetPtr]
    rw [if_neg hcond]
  · intro u q h hpx
    have hcond : ¬((some q : Ptr) = none ∨ u.px ≠ some q) := by
      push_neg
      exact ⟨by simp, hpx⟩
    simp only [unique_ptr.resetPtr]
    rw [if_neg hcond]

/-- Witness for C8 at concrete handles. -/
theorem C8_witness :
    shared_ptr.resetPtr ⟨some 0, ⟨some 0⟩⟩ (some 0) true ⟨[0], [⟨1, 0⟩]⟩ = .assertViolation
    ∧ unique_ptr.resetPtr ⟨some 0⟩ (some 0) ⟨[0], []⟩ = .assertViolation :=
  ⟨C8_self_reset_asserts.1 ⟨some 0, ⟨some 0⟩⟩ 0 true ⟨[0], [⟨1, 0⟩]⟩ rfl,
    C8_self_reset_asserts.2 ⟨some 0⟩ 0 ⟨[0], []⟩ rfl⟩

/-- C10: the `move` helper shipped with `unique_ptr` is the identity — it
returns its argument unchanged and does not empty it; the actual ownership
transfer (source emptied, destination takes the pointer) happens only in the
copy constructor and in the assignment operator built on it. -/
theorem C10_move_is_identity :
    (∀ u : unique_ptr, move u = u)
    ∧ (∀ u : unique_ptr, (move u).px = u.px)
    ∧ (∀ src : unique_ptr, unique_ptr.copyCtor src = (⟨src.px⟩, ⟨none⟩)) :=
  ⟨fun _ => rfl, fun _ => rfl, fun _ => rfl⟩

/-- C6: `dynamic_cast_owner` on an owning SharedOwner source: when the runtime
type check (oracle `dc`) succeeds, the result is a new handle carrying the
converted pointer and SHARING the source's counter container, whose cell is
incremented by one (so both handles then report the incremented use count);
when the check fails, or the source is empty, the result is the empty handle
and the heap — hence the source's pointer, counter and use count — is
untouched.  The source is taken by const reference and never written. -/
theorem C6_dynamic_cast_shared (dc : Nat → Bool) (src : shared_ptr) (h : Heap) :
    (∀ o c, src.px = some o → src.pn.pn = some c → dc o = true → ∀ allocOk,
      dynamic_pointer_cast dc src allocOk h = .ok (⟨some o, src.pn⟩, h.incCnt c)
      ∧ (c < h.cnts.length →
          (⟨some o, src.pn⟩ : shared_ptr).use_count (h.incCnt c) = src.use_count h + 1
          ∧ (h.incCnt c).cnts.length = h.cnts.length))
    ∧ (∀ o, src.px = some o → dc o = false → ∀ allocOk,
        dynamic_pointer_cast dc src allocOk h = .ok (shared_ptr.nullHandle, h))
    ∧ (src.px = none → ∀ allocOk,
        dynamic_pointer_cast dc src allocOk h = .ok (shared_ptr.nullHandle, h)) := by
  obtain ⟨px, ⟨pn⟩⟩ := src
  refine ⟨?_, ?_, ?_⟩
  · intro o c hpx hpn hdc allocOk
    simp only at hpx hpn
    subst hpx
    subst hpn
    constructor
    · simp only [dynamic_pointer_cast, dynCastPtr, shared_ptr.get, hdc, if_true]
      rfl
    · intro hlt
      constructor
      · rw [use_count_some rfl, use_count_some rfl, readCnt_incCnt_self _ _ hlt]
      · exact length_cnts_incCnt h c
  · intro o hpx hdc allocOk
    simp only at hpx
    subst hpx
    simp [dynamic_pointer_cast, dynCastPtr, shared_ptr.get, hdc, shared_ptr.nullHandle]
  · intro hpx allocOk
    simp only at hpx
    subst hpx
    rfl

/-- Witness for C6 at a concrete owning source, heap and cast oracles. -/
theorem C6_witness :
    dynamic_pointer_cast (fun _ => true) ⟨some 0, ⟨some 0⟩⟩ true ⟨[0], [⟨2, 0⟩]⟩
      = .ok (⟨some 0, ⟨some 0⟩⟩, (⟨[0], [⟨2, 0⟩]⟩ : Heap).incCnt 0)
    ∧ (⟨some 0, ⟨some 0⟩⟩ : shared_ptr).use_count ((⟨[0], [⟨2, 0⟩]⟩ : Heap).incCnt 0)
        = (⟨some 0, ⟨some 0⟩⟩ : shared_ptr).use_count ⟨[0], [⟨2, 0⟩]⟩ + 1
    ∧ dynamic_pointer_cast (fun _ => false) ⟨some 0, ⟨some 0⟩⟩ true ⟨[0], [⟨2, 0⟩]⟩
        = .ok (shared_ptr.nullHandle, ⟨[0], [⟨2, 0⟩]⟩) :=
  ⟨((C6_dynamic_cast_shared (fun _ => true) ⟨some 0, ⟨some 0⟩⟩ ⟨[0], [⟨2, 0⟩]⟩).1
      0 0 rfl rfl rfl true).1,
    (((C6_dynamic_cast_shared (fun _ => true) ⟨some 0, ⟨some 0⟩⟩ ⟨[0], [⟨2, 0⟩]⟩).1
      0 0 rfl rfl rfl true).2 (by decide)).1,
    (C6_dynamic_cast_shared (fun _ => false) ⟨some 0, ⟨some 0⟩⟩ ⟨[0], [⟨2, 0⟩]⟩).2.1
      0 rfl rfl true⟩

/-- C9: copy construction from a SharedOwner source satisfying the coherence
invariant never allocates a counter and cannot fail with `std::bad_alloc`:
the outcome is independent of whether allocation would succeed, it is never
the out-of-memory outcome, a successful copy shares the source's object and
counter without growing the counter heap, and for a source with a live
counter cell the copy increments that cell by exactly one.  The same holds
for copy assignment, which is built from the copy constructor. -/
theorem C9_copy_never_allocates (s : shared_ptr) (h : Heap) :
    (∀ allocOk, s.copyCtor allocOk h = s.copyCtor true h)
    ∧ (∀ allocOk r, s.copyCtor allocOk h ≠ .oom r)
    ∧ (∀ t h1, s.copyCtor true h = .ok (t, h1) →
        t.px = s.px ∧ t.pn = s.pn ∧ h1.cnts.length = h.cnts.length)
    ∧ (∀ o c, s.px = some o → s.pn.pn = some c → h.readCnt c ≠ 0 →
        s.copyCtor true h = .ok (⟨some o, s.pn⟩, h.incCnt c)
        ∧ (c < h.cnts.length → (h.incCnt c).readCnt c = h.readCnt c + 1))
    ∧ (∀ (d : shared_ptr) allocOk,
        shared_ptr.assignOp d s allocOk h = shared_ptr.assignOp d s true h
        ∧ ∀ e, shared_ptr.assignOp d s allocOk h ≠ .oom e) := by
  have hcases : (∃ t0 h10, (∀ allocOk, s.copyCtor allocOk h = .ok (t0, h10))
        ∧ t0.px = s.px ∧ t0.pn = s.pn ∧ h10.cnts.length = h.cnts.length)
      ∨ (∀ allocOk, s.copyCtor allocOk h = .assertViolation) := by
    cases hpx : s.px with
    | none =>
      left
      exact ⟨⟨none, s.pn⟩, h, fun allocOk => copyCtor_none_px hpx allocOk h,
        rfl, rfl, rfl⟩
    | some o =>
      cases hpn : s.pn.pn with
      | none =>
        right
        exact fun allocOk => copyCtor_incoherent hpx hpn allocOk h
      | some c =>
        by_cases hz : h.readCnt c = 0
        · right
          exact fun allocOk => copyCtor_dead_cell hpx hpn hz allocOk
        · left
          have hpn' : s.pn = ⟨some c⟩ := by
            obtain ⟨px, ⟨pn⟩⟩ := s
            simp only at hpn
            rw [hpn]
          refine ⟨⟨some o, s.pn⟩, h.incCnt c, fun allocOk => ?_,
            rfl, rfl, length_cnts_incCnt h c⟩
          rw [hpn']
          exact copyCtor_owning hpx hpn allocOk hz
  have hIrrel : ∀ allocOk, s.copyCtor allocOk h = s.copyCtor true h := by
    rcases hcases with ⟨t0, h10, hok, _⟩ | hassert
    · intro allocOk
      rw [hok allocOk, hok true]
    · intro allocOk
      rw [hassert allocOk, hassert true]
  have hNoOom : ∀ allocOk r, s.copyCtor allocOk h ≠ .oom r := by
    rcases hcases with ⟨t0, h10, hok, _⟩ | hassert
    · intro allocOk r hcon
      rw [hok allocOk] at hcon
      exact absurd hcon (by simp)
    · intro allocOk r hcon
      rw [hassert allocOk] at hcon
      exact absurd hcon (by simp)
  refine ⟨hIrrel, hNoOom, ?_, ?_, ?_⟩
  · intro t h1 heq
    rcases hcases with ⟨t0, h10, hok, hpx0, hpn0, hlen0⟩ | hassert
    · rw [hok true] at heq
      simp only [Res.ok.injEq, Prod.mk.injEq] at heq
      obtain ⟨h1t, h1h⟩ := heq
      subst h1t
      subst h1h
      exact ⟨hpx0, hpn0, hlen0⟩
    · rw [hassert true] at heq
      exact absurd heq (by simp)
  · intro o c hpx hpn hnz
    have hpn' : s.pn = ⟨some c⟩ := by
      obtain ⟨px, ⟨pn⟩⟩ := s
      simp only at hpn
      rw [hpn]
    constructor
    · rw [hpn']
      exact copyCtor_owning hpx hpn true hnz
    · intro hlt
      exact readCnt_incCnt_self h c hlt
  · intro d allocOk
    constructor
    · simp only [shared_ptr.assignOp, hIrrel allocOk]
    · intro e hcon
      cases hres : s.copyCtor true h with
      | ok a =>
        obtain ⟨t, h1⟩ := a
        simp only [shared_ptr.assignOp, hIrrel allocOk, hres] at hcon
        exact absurd hcon (by simp)
      | assertViolation =>
        simp only [shared_ptr.assignOp, hIrrel allocOk, hres] at hcon
        exact absurd hcon (by simp)
      | oom e2 => exact hNoOom true e2 hres

/-- Witness for C9 at a concrete coherent owning handle. -/
theorem C9_witness :
    shared_ptr.copyCtor ⟨some 0, ⟨some 0⟩⟩ false ⟨[0], [⟨1, 0⟩]⟩
      = shared_ptr.copyCtor ⟨some 0, ⟨some 0⟩⟩ true ⟨[0], [⟨1, 0⟩]⟩
    ∧ shared_ptr.copyCtor ⟨some 0, ⟨some 0⟩⟩ true ⟨[0], [⟨1, 0⟩]⟩
        = .ok (⟨some 0, ⟨some 0⟩⟩, (⟨[0], [⟨1, 0⟩]⟩ : Heap).incCnt 0)
    ∧ ((⟨[0], [⟨1, 0⟩]⟩ : Heap).incCnt 0).readCnt 0
        = (⟨[0], [⟨1, 0⟩]⟩ : Heap).readCnt 0 + 1 :=
  ⟨(C9_copy_never_allocates ⟨some 0, ⟨some 0⟩⟩ ⟨[0], [⟨1, 0⟩]⟩).1 false,
    ((C9_copy_never_allocates ⟨some 0, ⟨some 0⟩⟩ ⟨[0], [⟨1, 0⟩]⟩).2.2.2.1
      0 0 rfl rfl (by decide)).1,
    ((C9_copy_never_allocates ⟨some 0, ⟨some 0⟩⟩ ⟨[0], [⟨1, 0⟩]⟩).2.2.2.1
      0 0 rfl rfl (by decide)).2 (by decide)⟩

/-- C1: along every sequence of fresh-adoption, copy-construction,
copy-assignment, `reset()` and handle-destruction operations from the empty
world, every live owning handle's `use_count()` equals the number of live
handles currently referencing its object, every live empty handle reports 0,
and once an object (resp. its counter cell) is no longer referenced by any
live handle it has been destroyed exactly once — never zero times (leak) and
never twice (double free). -/
theorem C1_refcount_invariant (ops : List Op) :
    (∀ i s, (World.run World.init ops).liveAt i = some s →
      ∀ o, s.px = some o →
        s.use_count (World.run World.init ops).heap
          = (objref (World.run World.init ops).handles o : Int))
    ∧ (∀ i s, (World.run World.init ops).liveAt i = some s → s.px = none →
        s.use_count (World.run World.init ops).heap = 0)
    ∧ (∀ o, o < (World.run World.init ops).heap.objs.length →
        (World.run World.init ops).heap.objFreed o ≤ 1
        ∧ (objref (World.run World.init ops).handles o = 0 →
            (World.run World.init ops).heap.objFreed o = 1))
    ∧ (∀ c, c < (World.run World.init ops).heap.cnts.length →
        (World.run World.init ops).heap.cntFreed c ≤ 1
        ∧ (refcnt (World.run World.init ops).handles c = 0 →
            (World.run World.init ops).heap.cntFreed c = 1)) := by
  have hw := WF_run WF_init ops
  obtain ⟨hA, hB, hC, hD⟩ := hw
  refine ⟨?_, ?_, ?_, ?_⟩
  · intro i s hi o ho
    have hmem := liveAt_mem hi
    obtain ⟨hcoh, hobjOK, hcntOK⟩ := hA s hmem
    rcases hps : s.pn.pn with _ | c
    · rw [hcoh.mpr hps] at ho
      exact absurd ho (by simp)
    · obtain ⟨hclen, hcfr⟩ := hcntOK c hps
      obtain ⟨hval, _⟩ := (hB c hclen).2 hcfr
      rw [use_count_some hps, hval,
        objref_eq_refcnt_of_WF ⟨hA, hB, hC, hD⟩ hmem ho hps]
  · intro i s hi hpx
    have hmem := liveAt_mem hi
    have hpn := (hA s hmem).1.mp hpx
    rw [use_count_none hpn]
  · intro o holen
    have hc := hC o holen
    refine ⟨hc.1, ?_⟩
    intro h0
    by_cases hf : (World.run World.init ops).heap.objFreed o = 0
    · have := hc.2 hf
      omega
    · omega
  · intro c hclen
    have hb := hB c hclen
    refine ⟨hb.1, ?_⟩
    intro h0
    by_cases hf : (World.run World.init ops).heap.cntFreed c = 0
    · have := (hb.2 hf).2
      omega
    · omega

/-- Witness for C1 on two concrete operation sequences: after a fresh
adoption and one copy the shared count is 2 and equals the number of live
referencing handles; after both handles are destroyed, the object and the
counter cell have each been destroyed exactly once. -/
theorem C1_witness :
    ((World.run World.init [.fresh true, .copyCon 0]).liveAt 1
        = some ⟨some 0, ⟨some 0⟩⟩
      ∧ (⟨some 0, ⟨some 0⟩⟩ : shared_ptr).use_count
          (World.run World.init [.fresh true, .copyCon 0]).heap
        = (objref (World.run World.init [.fresh true, .copyCon 0]).handles 0 : Int))
    ∧ ((World.run World.init
          [.fresh true, .copyCon 0, .destroy 0, .destroy 1]).heap.objFreed 0 = 1
      ∧ (World.run World.init
          [.fresh true, .copyCon 0, .destroy 0, .destroy 1]).heap.cntFreed 0 = 1) := by
  refine ⟨⟨by decide, ?_⟩, ⟨?_, ?_⟩⟩
  · exact (C1_refcount_invariant [.fresh true, .copyCon 0]).1 1 ⟨some 0, ⟨some 0⟩⟩
      (by decide) 0 (by decide)
  · exact ((C1_refcount_invariant [.fresh true, .copyCon 0, .destroy 0, .destroy 1]).2.2.1 0
      (by decide)).2 (by decide)
  · exact ((C1_refcount_invariant [.fresh true, .copyCon 0, .destroy 0, .destroy 1]).2.2.2 0
      (by decide)).2 (by decide)

/-- C3: the boolean conversion of a SharedOwner returns true exactly when its
use count is positive; in particular an empty handle converts to false, and
every live non-empty handle in any state reachable from the empty world
converts to true. -/
theorem C3_bool_conversion :
    (∀ (s : shared_ptr) (h : Heap), s.toBool h = true ↔ 0 < s.use_count h)
    ∧ (∀ (s : shared_ptr) (h : Heap), s.pn.pn = none → s.toBool h = false)
    ∧ (∀ (ops : List Op) (i : Nat) (s : shared_ptr),
        (World.run World.init ops).liveAt i = some s → s.px ≠ none →
        s.toBool (World.run World.init ops).heap = true) := by
  refine ⟨?_, ?_, ?_⟩
  · intro s h
    simp [shared_ptr.toBool]
  · intro s h hn
    simp [shared_ptr.toBool, use_count_none hn]
  · intro ops i s hi hpx
    have hw := WF_run WF_init ops
    obtain ⟨hA, hB, hC, hD⟩ := hw
    have hmem := liveAt_mem hi
    obtain ⟨hcoh, hobjOK, hcntOK⟩ := hA s hmem
    rcases hps : s.pn.pn with _ | c
    · exact absurd (hcoh.mpr hps) hpx
    · obtain ⟨hclen, hcfr⟩ := hcntOK c hps
      obtain ⟨hval, hn1⟩ := (hB c hclen).2 hcfr
      simp only [shared_ptr.toBool, decide_eq_true_eq]
      rw [use_count_some hps, hval]
      exact_mod_cast (show 0 < refcnt (World.run World.init ops).handles c by omega)

/-- Witness for C3 on a concrete reachable owning handle and an empty one. -/
theorem C3_witness :
    (World.run World.init [.fresh true]).liveAt 0 = some ⟨some 0, ⟨some 0⟩⟩
    ∧ (⟨some 0, ⟨some 0⟩⟩ : shared_ptr).toBool
        (World.run World.init [.fresh true]).heap = true
    ∧ shared_ptr.nullHandle.toBool ⟨[], []⟩ = false :=
  ⟨by decide,
    C3_bool_conversion.2.2 [.fresh true] 0 ⟨some 0, ⟨some 0⟩⟩ (by decide) (by decide),
    C3_bool_conversion.2.1 shared_ptr.nullHandle ⟨[], []⟩ rfl⟩

end SPtr
